import Mathlib

/-!
Verification of the drawit diagram layout and connector-routing engine.

This file gives a shallow embedding, in Lean 4, of the layout algorithms in
`src/lib/diagram-layouts.ts`, the network topologies in the network-topology
module, the diagram quality analyzer / beautifier, the connector path router
(`getBezierPath`, `getSmoothStepPath`, `buildRoundedPath`,
`calculateAutoHandles`, `autoHandlePositions`) and the flowchart width
computation (`calculateNodeWidth`), and proves or refutes the behavioural
claims of the specification against that embedding.

Conventions of the embedding:
* JavaScript numbers are modelled as exact rationals (`ℚ`).
* `Math.sqrt`, `Math.cos`, `Math.sin`, `Math.PI` and `Math.random` are host
  library functions; they are modelled as components of an explicit
  environment `MathEnv` that is passed to every layout function, mirroring
  the ambient `Math` object available to all of the source code.  `rand n`
  is the result of the `n`-th call to `Math.random()`.  Theorems quantify
  over this environment, so they hold in particular for the real analytic
  functions.  Comparisons of `Math.sqrt d` against a non-negative constant
  `c` are translated to the exact equivalent comparison of `d` against
  `c * c` where noted, which is exact real-number semantics.
* JavaScript `Map` objects are modelled as insertion-ordered association
  lists (`jsSet` updates in place or appends, `jsGet` looks up), which is
  exactly the iteration-order semantics of `Map`.
* A thrown `TypeError` (reading a property of `undefined`, e.g. through a
  failed `map.get(k)!` non-null assertion) is modelled by `Option`: the
  embedded function returns `none` where the original crashes.
* `while` loops over work queues are written as structurally recursive
  functions on an explicit fuel argument; the fuel passed at each call site
  is an upper bound on the number of iterations the source loop can perform
  (the counting argument is given at each call site), so the embedded
  function computes the same result as the unbounded loop.
-/

namespace Drawit

/-- JavaScript `a || d` for an optional numeric field: `undefined` and `0`
are falsy, any other number passes through. -/
def jsOr (v : Option ℚ) (d : ℚ) : ℚ :=
  match v with
  | some w => if w = 0 then d else w
  | none => d

/-- `a || d` for an optional iteration/column count. -/
def jsOrNat (v : Option ℕ) (d : ℕ) : ℕ :=
  match v with
  | some w => if w = 0 then d else w
  | none => d

/-- `Math.round x = ⌊x + 1/2⌋` (round half up), exactly as in JavaScript. -/
def jsRound (q : ℚ) : ℚ := (⌊q + 1/2⌋ : ℤ)

/-- `Map.prototype.set`: update an existing key in place (keeping its
position in insertion order) or append a new binding. -/
def jsSet {κ α : Type} [DecidableEq κ] : List (κ × α) → κ → α → List (κ × α)
  | [], k, v => [(k, v)]
  | (k', v') :: rest, k, v =>
    if k' = k then (k, v) :: rest else (k', v') :: jsSet rest k v

/-- `Map.prototype.get`, returning `none` for a missing key. -/
def jsGet {κ α : Type} [DecidableEq κ] : List (κ × α) → κ → Option α
  | [], _ => none
  | (k', v') :: rest, k => if k' = k then some v' else jsGet rest k

/-- The unordered pairs `(i, j)` with `i < j` of a list, in the order of the
standard double loop `for i; for j = i+1`. -/
def upairs {α : Type} : List α → List (α × α)
  | [] => []
  | x :: xs => xs.map (fun y => (x, y)) ++ upairs xs

/-- A 2-D point. -/
structure Pt where
  x : ℚ
  y : ℚ
deriving DecidableEq, Repr

/-- A placed node: top-left origin plus size (the values stored in a
`LayoutResult`'s position map). -/
structure Rect where
  x : ℚ
  y : ℚ
  width : ℚ
  height : ℚ
deriving DecidableEq, Repr

/-- The bounding box of a layout. -/
structure LayoutBounds where
  width : ℚ
  height : ℚ
deriving DecidableEq, Repr

/-- `LayoutResult` of `diagram-layouts.ts`: the id → rect map (in insertion
order) and the bounds. -/
structure LayoutResult where
  nodes : List (String × Rect)
  bounds : LayoutBounds
deriving DecidableEq, Repr

/-- `Node` of `diagram-layouts.ts` (the `label` and `style` fields are never
read by any layout algorithm and are omitted). -/
structure Node where
  id : String
  width : Option ℚ := none
  height : Option ℚ := none
  fixed : Option Bool := none
  x : Option ℚ := none
  y : Option ℚ := none
deriving DecidableEq, Repr

/-- `Edge` of `diagram-layouts.ts` (`from` and `to` are Lean keywords, hence `from'`/`to'`;
the `type`/`label` fields are never read by the layouts and are omitted). -/
structure Edge where
  from' : String
  to' : String
deriving DecidableEq, Repr

/-- `rankDirection` values. -/
inductive RankDir
  | TB
  | BT
  | LR
  | RL
deriving DecidableEq, Repr

/-- `LayoutOptions` of `diagram-layouts.ts` (the unused `align` field is
omitted; `iterations` and `columns` are counts). -/
structure LayoutOptions where
  spacing : Option ℚ := none
  iterations : Option ℕ := none
  repulsion : Option ℚ := none
  attraction : Option ℚ := none
  columns : Option ℕ := none
  rowSpacing : Option ℚ := none
  colSpacing : Option ℚ := none
  radius : Option ℚ := none
  centerX : Option ℚ := none
  centerY : Option ℚ := none
  minSpacing : Option ℚ := none
  preventOverlap : Option Bool := none
  rankDirection : Option RankDir := none
deriving Repr

/-- The options value for a call site that passes no options object. -/
def noOptions : LayoutOptions := {}

/-- The ambient JavaScript `Math` library, made explicit.  `rand n` is the
value of the `n`-th `Math.random()` call made by the function under
consideration; `piq` stands for `Math.PI`; `sqrtq`, `cosq`, `sinq` stand
for `Math.sqrt`, `Math.cos`, `Math.sin`. -/
structure MathEnv where
  piq : ℚ
  rand : ℕ → ℚ
  sqrtq : ℚ → ℚ
  cosq : ℚ → ℚ
  sinq : ℚ → ℚ

/-- A concrete trivial environment, used to evaluate the embedding on
closed inputs whose results do not depend on the analytic functions. -/
def trivEnv : MathEnv :=
  ⟨0, fun _ => 0, fun _ => 0, fun _ => 0, fun _ => 0⟩

/-- Node placement accumulator: the shared shape of every layout's final
loop, which does `result.set(id, rect)`, `maxX = max(maxX, rect.x + width)`,
`maxY = max(maxY, rect.y + height)` for each placed node (for the
force-directed layouts the source phrases the max argument as
`pos.x + width/2`, which equals `rect.x + rect.width` for
`rect.x = pos.x - width/2`). -/
structure PlaceAcc where
  nodes : List (String × Rect)
  maxX : ℚ
  maxY : ℚ

/-- Run the shared placement loop over a list of `(id, rect)` placements. -/
def foldPlace (ps : List (String × Rect)) (acc : PlaceAcc) : PlaceAcc :=
  ps.foldl
    (fun a p =>
      ⟨jsSet a.nodes p.1 p.2, max a.maxX (p.2.x + p.2.width),
        max a.maxY (p.2.y + p.2.height)⟩)
    acc

/-- Package a finished placement accumulator as a `LayoutResult` with the
`+ 100` margin used by every layout. -/
def finishLayout (acc : PlaceAcc) : LayoutResult :=
  ⟨acc.nodes, ⟨acc.maxX + 100, acc.maxY + 100⟩⟩

/-! ### Tree layout (`treeLayout`, diagram-layouts.ts) -/

/-- The `children` adjacency map of `treeLayout`: for each edge,
`children.get(edge.from).push(edge.to)`. -/
def buildChildren (edges : List Edge) : List (String × List String) :=
  edges.foldl (fun m e => jsSet m e.from' ((jsGet m e.from').getD [] ++ [e.to'])) []

/-- The `parents` map of `treeLayout`: `parents.set(edge.to, edge.from)`
(later edges overwrite earlier ones; only key membership is ever used). -/
def buildParents (edges : List Edge) : List (String × String) :=
  edges.foldl (fun m e => jsSet m e.to' e.from') []

/-- `if (!levels[level]) levels[level] = []; levels[level].push(id)`:
append `id` to the bucket at index `level`, extending the array as needed
(intermediate holes behave as empty buckets under the later `forEach`). -/
def pushAtLevel : List (List String) → ℕ → String → List (List String)
  | [], 0, id => [[id]]
  | [], l + 1, id => [] :: pushAtLevel [] l id
  | g :: gs, 0, id => (g ++ [id]) :: gs
  | g :: gs, l + 1, id => g :: pushAtLevel gs l id

/-- The BFS `while (queue.length > 0)` loop of `treeLayout`: pop an entry,
skip it if visited, otherwise record it at its level and enqueue its
children one level down.  `fuel` bounds the number of iterations: every
entry ever enqueued is either one of the initial root entries or is pushed
when its parent is first visited, and each id is first-visited at most
once, so at most `roots.length + edges.length` entries are ever popped.
All call sites pass at least `nodes.length + edges.length + 1`. -/
def bfsLevels (children : List (String × List String)) :
    ℕ → List (String × ℕ) → List String → List (List String) → List (List String)
  | 0, _, _, levels => levels
  | _ + 1, [], _, levels => levels
  | fuel + 1, (id, level) :: rest, visited, levels =>
    if id ∈ visited then bfsLevels children fuel rest visited levels
    else
      bfsLevels children fuel
        (rest ++ ((jsGet children id).getD []).map (fun c => (c, level + 1)))
        (id :: visited) (pushAtLevel levels level id)

/-- The level assignment computed by `treeLayout`'s BFS phase: bucket `l`
holds the ids the BFS placed at level `l`. -/
def treeLevels (nodes : List Node) (edges : List Edge) : List (List String) :=
  let children := buildChildren edges
  let parents := buildParents edges
  let roots := nodes.filter (fun n => (jsGet parents n.id).isNone)
  bfsLevels children (nodes.length + edges.length + 1)
    (roots.map (fun r => (r.id, 0))) [] []

/-- The level index at which `id` was placed (the first bucket containing
it), if any. -/
def levelOf (levels : List (List String)) (id : String) : Option ℕ :=
  (levels.enum.find? (fun li => id ∈ li.2)).map (·.1)

/-- `treeLayout` of `diagram-layouts.ts`.  Returns `none` when the
positioning loop crashes on `nodeMap.get(nodeId)!` being `undefined`
(which happens when a dangling `edge.to` id was reached by the BFS). -/
def treeLayout (nodes : List Node) (edges : List Edge)
    (options : LayoutOptions) (_env : MathEnv) : Option LayoutResult :=
  let spacing := jsOr options.spacing 150
  let verticalSpacing : ℚ := 150
  let startX := jsOr options.centerX 400
  let startY := jsOr options.centerY 100
  let nodeMap := nodes.foldl (fun m n => jsSet m n.id n) []
  let levels := treeLevels nodes edges
  -- Position nodes by level.  The source interleaves `result.set` with the
  -- running max; we first collect the placements in the same order and then
  -- run the shared placement loop, which computes the same maps and maxima.
  let placements :=
    levels.enum.foldlM
      (fun (acc : List (String × Rect)) li => do
        let y := startY + (li.1 : ℚ) * verticalSpacing
        let totalWidth := (li.2.length : ℚ) * spacing
        let startXForLevel := startX - totalWidth / 2
        li.2.enum.foldlM
          (fun (acc2 : List (String × Rect)) (ni : ℕ × String) => do
            let node ← jsGet nodeMap ni.2
            let width := jsOr node.width 150
            let height := jsOr node.height 80
            let x :=
              match node.fixed, node.x with
              | some true, some xv => xv
              | _, _ => startXForLevel + (ni.1 : ℚ) * spacing
            let finalY :=
              match node.fixed, node.y with
              | some true, some yv => yv
              | _, _ => y
            pure (acc2 ++ [(ni.2, (⟨x, finalY, width, height⟩ : Rect))]))
          acc)
      []
  placements.map (fun ps => finishLayout (foldPlace ps ⟨[], 0, 0⟩))

/-! ### Circular layout (`circularLayout`) -/

/-- `circularLayout` of `diagram-layouts.ts`: nodes evenly on a circle
starting at 12 o'clock, independent of edges. -/
def circularLayout (nodes : List Node) (_edges : List Edge)
    (options : LayoutOptions) (env : MathEnv) : LayoutResult :=
  let centerX := jsOr options.centerX 500
  let centerY := jsOr options.centerY 400
  let radius := jsOr options.radius 250
  let placements :=
    nodes.enum.map (fun ni =>
      let angle := 2 * env.piq * (ni.1 : ℚ) / (nodes.length : ℚ) - env.piq / 2
      let width := jsOr ni.2.width 150
      let height := jsOr ni.2.height 80
      let x :=
        match ni.2.fixed, ni.2.x with
        | some true, some xv => xv
        | _, _ => centerX + radius * env.cosq angle - width / 2
      let y :=
        match ni.2.fixed, ni.2.y with
        | some true, some yv => yv
        | _, _ => centerY + radius * env.sinq angle - height / 2
      (ni.2.id, (⟨x, y, width, height⟩ : Rect)))
  finishLayout (foldPlace placements ⟨[], 0, 0⟩)

/-! ### Grid layout (`gridLayout`) -/

/-- Exact `⌈√n⌉` on naturals (the value of `Math.ceil(Math.sqrt(n))` for the
integer inputs this code passes). -/
def natCeilSqrt (n : ℕ) : ℕ :=
  if Nat.sqrt n * Nat.sqrt n = n then Nat.sqrt n else Nat.sqrt n + 1

/-- `gridLayout` of `diagram-layouts.ts`: row/column from index and a
configurable or `⌈√n⌉`-derived column count. -/
def gridLayout (nodes : List Node) (_edges : List Edge)
    (options : LayoutOptions) (_env : MathEnv) : LayoutResult :=
  let columns := jsOrNat options.columns (natCeilSqrt nodes.length)
  let rowSpacing := jsOr options.rowSpacing 150
  let colSpacing := jsOr options.colSpacing 200
  let startX : ℚ := 100
  let startY : ℚ := 100
  let placements :=
    nodes.enum.map (fun ni =>
      let row := ni.1 / columns
      let col := ni.1 % columns
      let width := jsOr ni.2.width 150
      let height := jsOr ni.2.height 80
      let x :=
        match ni.2.fixed, ni.2.x with
        | some true, some xv => xv
        | _, _ => startX + (col : ℚ) * colSpacing
      let y :=
        match ni.2.fixed, ni.2.y with
        | some true, some yv => yv
        | _, _ => startY + (row : ℚ) * rowSpacing
      (ni.2.id, (⟨x, y, width, height⟩ : Rect)))
  finishLayout (foldPlace placements ⟨[], 0, 0⟩)

/-! ### Force-directed layout (`forceDirectedLayout`) -/

/-- Simulation state per node: position and velocity. -/
structure PosVel where
  x : ℚ
  y : ℚ
  vx : ℚ
  vy : ℚ
deriving DecidableEq, Repr

/-- Accumulated force per node. -/
structure ForceVec where
  fx : ℚ
  fy : ℚ
deriving DecidableEq, Repr

/-- One step of the initial random placement of `forceDirectedLayout`:
each of the two coordinate ternaries consumes one `Math.random()` call when
(and only when) the node is not pinned on that coordinate; the second
accumulator component threads the call counter. -/
def fdInitStep (env : MathEnv) (acc : List (String × PosVel) × ℕ)
    (n : Node) : List (String × PosVel) × ℕ :=
  let xc : ℚ × ℕ :=
    match n.fixed, n.x with
    | some true, some xv => (xv, acc.2)
    | _, _ => (400 + env.rand acc.2 * 600, acc.2 + 1)
  let yc : ℚ × ℕ :=
    match n.fixed, n.y with
    | some true, some yv => (yv, xc.2)
    | _, _ => (300 + env.rand xc.2 * 400, xc.2 + 1)
  (jsSet acc.1 n.id ⟨xc.1, yc.1, 0, 0⟩, yc.2)

/-- Initial random placement of `forceDirectedLayout`. -/
def fdInitPositions (env : MathEnv) (nodes : List Node) :
    List (String × PosVel) × ℕ :=
  nodes.foldl (fdInitStep env) ([], 0)

/-- Repulsive phase of one `forceDirectedLayout` iteration: inverse-square
repulsion over every unordered node pair. -/
def fdRepulsion (env : MathEnv) (repulsion : ℚ) (nodes : List Node)
    (positions : List (String × PosVel)) (forces : List (String × ForceVec)) :
    Option (List (String × ForceVec)) :=
  (upairs nodes).foldlM
    (fun forces p => do
      let pos1 ← jsGet positions p.1.id
      let pos2 ← jsGet positions p.2.id
      let dx := pos2.x - pos1.x
      let dy := pos2.y - pos1.y
      let distSq := dx * dx + dy * dy + 1 / 100
      let dist := env.sqrtq distSq
      let force := repulsion / distSq
      let fx := force * dx / dist
      let fy := force * dy / dist
      let f1 ← jsGet forces p.1.id
      let forces1 := jsSet forces p.1.id ⟨f1.fx - fx, f1.fy - fy⟩
      let f2 ← jsGet forces1 p.2.id
      pure (jsSet forces1 p.2.id ⟨f2.fx + fx, f2.fy + fy⟩))
    forces

/-- Attractive phase of one `forceDirectedLayout` iteration: Hookean
attraction along each edge.  `positions.get(edge.from)!` / `...to!` crash
on a dangling edge endpoint, hence the `Option` binds. -/
def fdAttraction (env : MathEnv) (attraction : ℚ) (edges : List Edge)
    (positions : List (String × PosVel)) (forces : List (String × ForceVec)) :
    Option (List (String × ForceVec)) :=
  edges.foldlM
    (fun forces e => do
      let pos1 ← jsGet positions e.from'
      let pos2 ← jsGet positions e.to'
      let dx := pos2.x - pos1.x
      let dy := pos2.y - pos1.y
      let dist := env.sqrtq (dx * dx + dy * dy + 1 / 100)
      let force := attraction * dist
      let fx := force * dx / dist
      let fy := force * dy / dist
      let f1 ← jsGet forces e.from'
      let forces1 := jsSet forces e.from' ⟨f1.fx + fx, f1.fy + fy⟩
      let f2 ← jsGet forces1 e.to'
      pure (jsSet forces1 e.to' ⟨f2.fx - fx, f2.fy - fy⟩))
    forces

/-- Integration phase of one `forceDirectedLayout` iteration: Euler step
with constant damping `0.8` and clamping to the `[50,1950] × [50,1450]`
box.  Fixed nodes are skipped. -/
def fdApply (nodes : List Node) (forces : List (String × ForceVec))
    (positions : List (String × PosVel)) : Option (List (String × PosVel)) :=
  nodes.foldlM
    (fun positions n =>
      if n.fixed = some true then pure positions
      else do
        let pos ← jsGet positions n.id
        let force ← jsGet forces n.id
        let vx := (pos.vx + force.fx) * (4 / 5)
        let vy := (pos.vy + force.fy) * (4 / 5)
        let x := max 50 (min 1950 (pos.x + vx))
        let y := max 50 (min 1450 (pos.y + vy))
        pure (jsSet positions n.id ⟨x, y, vx, vy⟩))
    positions

/-- One iteration of the `forceDirectedLayout` simulation loop. -/
def fdStep (env : MathEnv) (repulsion attraction : ℚ) (nodes : List Node)
    (edges : List Edge) (positions : List (String × PosVel)) :
    Option (List (String × PosVel)) := do
  let forces0 := nodes.foldl (fun m n => jsSet m n.id (⟨0, 0⟩ : ForceVec)) []
  let forces1 ← fdRepulsion env repulsion nodes positions forces0
  let forces2 ← fdAttraction env attraction edges positions forces1
  fdApply nodes forces2 positions

/-- The fixed-count simulation loop. -/
def fdLoop (env : MathEnv) (repulsion attraction : ℚ) (nodes : List Node)
    (edges : List Edge) : ℕ → List (String × PosVel) →
    Option (List (String × PosVel))
  | 0, positions => some positions
  | k + 1, positions =>
    fdStep env repulsion attraction nodes edges positions >>=
      fdLoop env repulsion attraction nodes edges k

/-- Final conversion of `forceDirectedLayout` (and of the enhanced
variant): center-based positions to top-left rects; the source accumulates
`maxX` from `pos.x + width/2`, which equals `rect.x + rect.width`. -/
def fdConvert (nodes : List Node) (positions : List (String × PosVel)) :
    Option (List (String × Rect)) :=
  nodes.foldlM
    (fun (acc : List (String × Rect)) n => do
      let pos ← jsGet positions n.id
      let width := jsOr n.width 150
      let height := jsOr n.height 80
      pure (acc ++
        [(n.id, (⟨pos.x - width / 2, pos.y - height / 2, width, height⟩ : Rect))]))
    []

/-- `forceDirectedLayout` of `diagram-layouts.ts`.  (The `edgeMap` built at
lines 219-225 of the source is never read afterwards and is omitted.)
Returns `none` when the source crashes, i.e. when some simulated edge
refers to a node id with no position. -/
def forceDirectedLayout (nodes : List Node) (edges : List Edge)
    (options : LayoutOptions) (env : MathEnv) : Option LayoutResult := do
  let iterations := jsOrNat options.iterations 100
  let repulsion := jsOr options.repulsion 5000
  let attraction := jsOr options.attraction (1 / 100)
  let positions0 := (fdInitPositions env nodes).1
  let positions ← fdLoop env repulsion attraction nodes edges iterations positions0
  let ps ← fdConvert nodes positions
  pure (finishLayout (foldPlace ps ⟨[], 0, 0⟩))

/-! ### Dagre-inspired rank layout (`dagreLayout`) -/

/-- The `while (queue.length > 0)` loop of `dagreLayout` (Kahn's
algorithm): pop a node, decrement each out-neighbour's in-degree, relax its
rank to `max(rank, currentRank + 1)`, and enqueue it when the in-degree
reaches zero.  `ranks.get(nodeId)!` is always defined for a queued node
(it is set before every push), modelled by `.getD 0`.
`fuel` bounds the iteration count: each popped entry was pushed either at
initialisation (at most `nodes.length` entries) or when its in-degree
reached zero, which happens at most once per distinct edge target (the
stored in-degrees strictly decrease), so at most
`nodes.length + edges.length` entries are ever popped; every call site
passes `nodes.length + edges.length + 1`. -/
def kahnAux (outE : List (String × List String)) :
    ℕ → List String → List (String × ℤ) → List (String × ℕ) →
    List (String × ℕ)
  | 0, _, _, ranks => ranks
  | _ + 1, [], _, ranks => ranks
  | fuel + 1, id :: rest, inDeg, ranks =>
    let currentRank := (jsGet ranks id).getD 0
    let r :=
      ((jsGet outE id).getD []).foldl
        (fun (acc : List (String × ℤ) × List (String × ℕ) × List String) c =>
          let newDegree := (jsGet acc.1 c).getD 0 - 1
          let inDeg' := jsSet acc.1 c newDegree
          let childRank := max ((jsGet acc.2.1 c).getD 0) (currentRank + 1)
          let ranks' := jsSet acc.2.1 c childRank
          let pushes := if newDegree = 0 then acc.2.2 ++ [c] else acc.2.2
          (inDeg', ranks', pushes))
        (inDeg, ranks, [])
    kahnAux outE fuel (rest ++ r.2.2) r.1 r.2.1

/-- `dagreLayout` of `diagram-layouts.ts`.  (The `minSpacing` constant and
the `inEdges` map are computed by the source but never read; both are
omitted.)  Returns `none` when the positioning loop crashes on
`nodeMap.get(nodeId)!` for a rank entry created by a dangling `edge.to`. -/
def dagreLayout (nodes : List Node) (edges : List Edge)
    (options : LayoutOptions) (_env : MathEnv) : Option LayoutResult := do
  let rankDir := options.rankDirection.getD RankDir.TB
  let nodeSpacing := jsOr options.spacing 150
  let rankSpacing : ℚ := 200
  let nodeMap := nodes.foldl (fun m n => jsSet m n.id n) []
  let inDegree0 := nodes.foldl (fun m n => jsSet m n.id (0 : ℤ)) []
  let outEdges0 := nodes.foldl (fun m n => jsSet m n.id ([] : List String)) []
  let built :=
    edges.foldl
      (fun (acc : List (String × List String) × List (String × ℤ)) e =>
        -- `outEdges.get(edge.from)?.push(edge.to)`: no-op on a missing key.
        let oe :=
          match jsGet acc.1 e.from' with
          | some l => jsSet acc.1 e.from' (l ++ [e.to'])
          | none => acc.1
        let ind := jsSet acc.2 e.to' ((jsGet acc.2 e.to').getD 0 + 1)
        (oe, ind))
      (outEdges0, inDegree0)
  let initQR :=
    nodes.foldl
      (fun (acc : List String × List (String × ℕ)) n =>
        if jsGet built.2 n.id = some 0 then
          (acc.1 ++ [n.id], jsSet acc.2 n.id 0)
        else acc)
      ([], [])
  let ranks1 :=
    kahnAux built.1 (nodes.length + edges.length + 1) initQR.1 built.2 initQR.2
  -- Cycle fallback: unranked nodes are pinned to rank 0.
  let ranks2 :=
    nodes.foldl
      (fun r n => if (jsGet r n.id).isNone then jsSet r n.id 0 else r) ranks1
  let rankGroups :=
    ranks2.foldl
      (fun (g : List (ℕ × List String)) p =>
        jsSet g p.2 ((jsGet g p.2).getD [] ++ [p.1]))
      []
  let startX : ℚ := 100
  let startY : ℚ := 100
  let isVertical := rankDir = RankDir.TB ∨ rankDir = RankDir.BT
  let isReversed := rankDir = RankDir.BT ∨ rankDir = RankDir.RL
  let maxRankKey := (rankGroups.map (·.1)).foldl max 0
  let placements ←
    rankGroups.foldlM
      (fun (acc : List (String × Rect)) g => do
        let actualRank : ℕ := if isReversed then maxRankKey - g.1 else g.1
        g.2.enum.foldlM
          (fun (acc2 : List (String × Rect)) (ni : ℕ × String) => do
            let node ← jsGet nodeMap ni.2
            let width := jsOr node.width 150
            let height := jsOr node.height 80
            let xy : ℚ × ℚ :=
              if isVertical then
                let totalWidth := (g.2.length : ℚ) * nodeSpacing
                (match node.fixed, node.x with
                  | some true, some xv => xv
                  | _, _ =>
                    startX + (ni.1 : ℚ) * nodeSpacing - totalWidth / 2 + 500,
                 match node.fixed, node.y with
                  | some true, some yv => yv
                  | _, _ => startY + (actualRank : ℚ) * rankSpacing)
              else
                let totalHeight := (g.2.length : ℚ) * nodeSpacing
                (match node.fixed, node.x with
                  | some true, some xv => xv
                  | _, _ => startX + (actualRank : ℚ) * rankSpacing,
                 match node.fixed, node.y with
                  | some true, some yv => yv
                  | _, _ =>
                    startY + (ni.1 : ℚ) * nodeSpacing - totalHeight / 2 + 300)
            pure (acc2 ++ [(ni.2, (⟨xy.1, xy.2, width, height⟩ : Rect))]))
          acc)
      []
  pure (finishLayout (foldPlace placements ⟨[], 0, 0⟩))

/-! ### Radial hub-and-spoke layout (`radialLayout`) -/

/-- `Set.prototype.add` on an insertion-ordered list. -/
def addUnique (l : List String) (id : String) : List String :=
  if id ∈ l then l else l ++ [id]

/-- The ring-assignment `while (visited.size < nodes.length)` loop of
`radialLayout`.  Each continuing iteration adds at least one fresh id to
`visited` while `visited.size < nodes.length`, so the loop runs at most
`nodes.length` times; every call site passes fuel `nodes.length + 1`. -/
def ringAux (nodes : List Node) (edges : List Edge) :
    ℕ → List String → List String → List (ℕ × List String) → ℕ →
    List (ℕ × List String)
  | fuel, current, visited, rings, ring =>
    if nodes.length ≤ visited.length then rings
    else
      match fuel with
      | 0 => rings
      | fuel + 1 =>
        let ring' := ring + 1
        let next1 :=
          current.foldl
            (fun nn nodeId =>
              edges.foldl
                (fun nn e =>
                  let nn1 :=
                    if e.from' = nodeId ∧ e.to' ∉ visited then addUnique nn e.to'
                    else nn
                  if e.to' = nodeId ∧ e.from' ∉ visited then
                    addUnique nn1 e.from'
                  else nn1)
                nn)
            [] 
        let next2 :=
          if next1 = [] then
            nodes.foldl
              (fun nn n => if n.id ∈ visited then nn else addUnique nn n.id) []
          else next1
        if next2 ≠ [] then
          ringAux nodes edges fuel next2 (next2.foldl addUnique visited)
            (jsSet rings ring' next2) ring'
        else rings

/-- `radialLayout` of `diagram-layouts.ts`: top-degree hubs in ring 0,
concentric BFS rings around them.  The source reads each just-written rect
back out of `result` to accumulate the maxima, which is the shared
placement loop.  Returns `none` when the positioning loop crashes on
`nodeMap.get(nodeId)!` for a ring id created by a dangling edge
endpoint. -/
def radialLayout (nodes : List Node) (edges : List Edge)
    (options : LayoutOptions) (env : MathEnv) : Option LayoutResult := do
  let centerX := jsOr options.centerX 500
  let centerY := jsOr options.centerY 400
  let minRadius : ℚ := 100
  let radiusIncrement : ℚ := 150
  let counts0 := nodes.foldl (fun m n => jsSet m n.id (0 : ℕ)) []
  let counts :=
    edges.foldl
      (fun m e =>
        let m1 := jsSet m e.from' ((jsGet m e.from').getD 0 + 1)
        jsSet m1 e.to' ((jsGet m1 e.to').getD 0 + 1))
      counts0
  -- `[...nodes].sort((a, b) => countB - countA)`: stable descending sort.
  let sortedNodes :=
    nodes.mergeSort
      (fun a b => (jsGet counts b.id).getD 0 ≤ (jsGet counts a.id).getD 0)
  let nodeMap := nodes.foldl (fun m n => jsSet m n.id n) []
  -- `Math.min(3, Math.ceil(nodes.length * 0.1))`; `⌈n/10⌉ = (n+9)/10`.
  let hubCount := min 3 ((nodes.length + 9) / 10)
  let hubs := sortedNodes.take hubCount
  let rings0 : List (ℕ × List String) := [(0, hubs.map (·.id))]
  let visited0 := hubs.foldl (fun v h => addUnique v h.id) []
  let rings :=
    ringAux nodes edges (nodes.length + 1) (hubs.map (·.id)) visited0 rings0 0
  let placements ←
    rings.foldlM
      (fun (acc : List (String × Rect)) ri => do
        let radius :=
          if ri.1 = 0 then 0 else minRadius + (ri.1 : ℚ) * radiusIncrement
        ri.2.enum.foldlM
          (fun (acc2 : List (String × Rect)) (ni : ℕ × String) => do
            let node ← jsGet nodeMap ni.2
            let width := jsOr node.width 120
            let height := jsOr node.height 80
            if ri.1 = 0 then
              -- Center node(s): small circle when there are several hubs.
              let angle :=
                if 1 < ri.2.length then
                  2 * env.piq * (ni.1 : ℚ) / (ri.2.length : ℚ)
                else 0
              let mult : ℚ := if 1 < ri.2.length then 30 else 0
              let x := centerX + mult * env.cosq angle - width / 2
              let y := centerY + mult * env.sinq angle - height / 2
              pure (acc2 ++ [(ni.2, (⟨x, y, width, height⟩ : Rect))])
            else
              let angle :=
                2 * env.piq * (ni.1 : ℚ) / (ri.2.length : ℚ) - env.piq / 2
              let x :=
                match node.fixed, node.x with
                | some true, some xv => xv
                | _, _ => centerX + radius * env.cosq angle - width / 2
              let y :=
                match node.fixed, node.y with
                | some true, some yv => yv
                | _, _ => centerY + radius * env.sinq angle - height / 2
              pure (acc2 ++ [(ni.2, (⟨x, y, width, height⟩ : Rect))]))
          acc)
      []
  pure (finishLayout (foldPlace placements ⟨[], 0, 0⟩))

/-! ### Enhanced force-directed layout (`enhancedForceDirectedLayout`) -/

/-- Repulsive phase of the enhanced variant: the squared distance is
clamped below by `100` to prevent extreme forces. -/
def efdRepulsion (env : MathEnv) (repulsion : ℚ) (nodes : List Node)
    (positions : List (String × PosVel)) (forces : List (String × ForceVec)) :
    Option (List (String × ForceVec)) :=
  (upairs nodes).foldlM
    (fun forces p => do
      let pos1 ← jsGet positions p.1.id
      let pos2 ← jsGet positions p.2.id
      let dx := pos2.x - pos1.x
      let dy := pos2.y - pos1.y
      let distSq := max (dx * dx + dy * dy) 100
      let dist := env.sqrtq distSq
      let force := repulsion / distSq
      let fx := force * dx / dist
      let fy := force * dy / dist
      let f1 ← jsGet forces p.1.id
      let forces1 := jsSet forces p.1.id ⟨f1.fx - fx, f1.fy - fy⟩
      let f2 ← jsGet forces1 p.2.id
      pure (jsSet forces1 p.2.id ⟨f2.fx + fx, f2.fy + fy⟩))
    forces

/-- Attractive phase of the enhanced variant: spring force towards the
optimal edge length of `150`. -/
def efdAttraction (env : MathEnv) (attraction : ℚ) (edges : List Edge)
    (positions : List (String × PosVel)) (forces : List (String × ForceVec)) :
    Option (List (String × ForceVec)) :=
  edges.foldlM
    (fun forces e => do
      let pos1 ← jsGet positions e.from'
      let pos2 ← jsGet positions e.to'
      let dx := pos2.x - pos1.x
      let dy := pos2.y - pos1.y
      let dist := env.sqrtq (dx * dx + dy * dy + 1 / 100)
      let force := attraction * (dist - 150)
      let fx := force * dx / dist
      let fy := force * dy / dist
      let f1 ← jsGet forces e.from'
      let forces1 := jsSet forces e.from' ⟨f1.fx + fx, f1.fy + fy⟩
      let f2 ← jsGet forces1 e.to'
      pure (jsSet forces1 e.to' ⟨f2.fx - fx, f2.fy - fy⟩))
    forces

/-- Integration phase of the enhanced variant: force scaled by `0.1`,
temperature-adaptive damping `0.85 * temperature`, clamping to
`[100,1900] × [100,1400]`. -/
def efdApply (temperature : ℚ) (nodes : List Node)
    (forces : List (String × ForceVec)) (positions : List (String × PosVel)) :
    Option (List (String × PosVel)) :=
  nodes.foldlM
    (fun positions n =>
      if n.fixed = some true then pure positions
      else do
        let pos ← jsGet positions n.id
        let force ← jsGet forces n.id
        let damping := (17 / 20 : ℚ) * temperature
        let vx := (pos.vx + force.fx * (1 / 10)) * damping
        let vy := (pos.vy + force.fy * (1 / 10)) * damping
        let x := max 100 (min 1900 (pos.x + vx))
        let y := max 100 (min 1400 (pos.y + vy))
        pure (jsSet positions n.id ⟨x, y, vx, vy⟩))
    positions

/-- One iteration of the enhanced simulation: forces, integration, and
cooling (`temperature *= 0.95`). -/
def efdStep (env : MathEnv) (repulsion attraction : ℚ) (nodes : List Node)
    (edges : List Edge) (st : List (String × PosVel) × ℚ) :
    Option (List (String × PosVel) × ℚ) := do
  let forces0 := nodes.foldl (fun m n => jsSet m n.id (⟨0, 0⟩ : ForceVec)) []
  let forces1 ← efdRepulsion env repulsion nodes st.1 forces0
  let forces2 ← efdAttraction env attraction edges st.1 forces1
  let positions ← efdApply st.2 nodes forces2 st.1
  pure (positions, st.2 * (19 / 20))

/-- The fixed-count enhanced simulation loop. -/
def efdLoop (env : MathEnv) (repulsion attraction : ℚ) (nodes : List Node)
    (edges : List Edge) : ℕ → List (String × PosVel) × ℚ →
    Option (List (String × PosVel) × ℚ)
  | 0, st => some st
  | k + 1, st =>
    efdStep env repulsion attraction nodes edges st >>=
      efdLoop env repulsion attraction nodes edges k

/-- One overlap-resolution pass of the enhanced variant: push each
pairwise-close, non-pinned pair apart along their connecting vector.  (The
source also reads the node heights here but never uses them; `minDist`
depends on the widths only.) -/
def efdOverlapPass (env : MathEnv) (minSpacing : ℚ) (nodes : List Node)
    (positions : List (String × PosVel)) : Option (List (String × PosVel)) :=
  (upairs nodes).foldlM
    (fun positions p =>
      if p.1.fixed = some true ∧ p.2.fixed = some true then pure positions
      else do
        let pos1 ← jsGet positions p.1.id
        let pos2 ← jsGet positions p.2.id
        let width1 := jsOr p.1.width 150
        let width2 := jsOr p.2.width 150
        let dx := pos2.x - pos1.x
        let dy := pos2.y - pos1.y
        let dist := env.sqrtq (dx * dx + dy * dy)
        let minDist := (width1 + width2) / 2 + minSpacing
        if dist < minDist ∧ 0 < dist then
          let overlap := minDist - dist
          let moveX := overlap * dx / dist / 2
          let moveY := overlap * dy / dist / 2
          let positions1 :=
            if p.1.fixed = some true then positions
            else
              jsSet positions p.1.id
                ⟨pos1.x - moveX, pos1.y - moveY, pos1.vx, pos1.vy⟩
          match jsGet positions1 p.2.id with
          | none => none
          | some pos2' =>
            if p.2.fixed = some true then pure positions1
            else
              pure (jsSet positions1 p.2.id
                ⟨pos2'.x + moveX, pos2'.y + moveY, pos2'.vx, pos2'.vy⟩)
        else pure positions)
    positions

/-- The five overlap-resolution passes. -/
def efdOverlapPasses (env : MathEnv) (minSpacing : ℚ) (nodes : List Node) :
    ℕ → List (String × PosVel) → Option (List (String × PosVel))
  | 0, positions => some positions
  | k + 1, positions =>
    efdOverlapPass env minSpacing nodes positions >>=
      efdOverlapPasses env minSpacing nodes k

/-- `enhancedForceDirectedLayout` of `diagram-layouts.ts`.  (The
`neighbors` map built at lines 570-576 of the source is never read
afterwards and is omitted.) -/
def enhancedForceDirectedLayout (nodes : List Node) (edges : List Edge)
    (options : LayoutOptions) (env : MathEnv) : Option LayoutResult := do
  let iterations := jsOrNat options.iterations 150
  let repulsion := jsOr options.repulsion 8000
  let attraction := jsOr options.attraction (3 / 200)
  let preventOverlap := options.preventOverlap ≠ some false
  let minSpacing := jsOr options.minSpacing 20
  let centerX := jsOr options.centerX 700
  let centerY := jsOr options.centerY 400
  let startRadius : ℚ := 200
  let positions0 :=
    nodes.enum.foldl
      (fun m ni =>
        let angle := 2 * env.piq * (ni.1 : ℚ) / (nodes.length : ℚ)
        let x :=
          match ni.2.fixed, ni.2.x with
          | some true, some xv => xv
          | _, _ => centerX + startRadius * env.cosq angle
        let y :=
          match ni.2.fixed, ni.2.y with
          | some true, some yv => yv
          | _, _ => centerY + startRadius * env.sinq angle
        jsSet m ni.2.id (⟨x, y, 0, 0⟩ : PosVel))
      []
  let final ← efdLoop env repulsion attraction nodes edges iterations
    (positions0, 1)
  let positions ←
    if preventOverlap then efdOverlapPasses env minSpacing nodes 5 final.1
    else pure final.1
  let ps ← fdConvert nodes positions
  pure (finishLayout (foldPlace ps ⟨[], 0, 0⟩))


/-! ### Network topologies (network-topology module, part of the repo) -/

/-- `NetworkNode` (only the `id` field is read by the topology layouts;
`label`/`type`/`icon` are omitted). -/
structure NetworkNode where
  id : String
deriving DecidableEq, Repr

/-- `NetworkLink` (`label`/`bandwidth` omitted: never read by layouts). -/
structure NetworkLink where
  from' : String
  to' : String
deriving DecidableEq, Repr

/-- Outcome of `starTopology`: the source `throw new Error(...)`s when the
center node is absent; `thrown` models that thrown exception (it is not a
return value of the function). -/
inductive StarOutcome
  | thrown (msg : String)
  | ok (r : LayoutResult)
deriving DecidableEq, Repr

/-- `starTopology`: one central hub, all other nodes ringed around it.
Throws when `centerNodeId` names no node.  The source updates `maxX`/`maxY`
from the peripheral nodes and afterwards takes the max with
`centerX + centerWidth/2 = 560` and `centerY + centerHeight/2 = 460`,
which are exactly the center rect's `x + width` and `y + height`; placing
the center rect through the shared placement loop computes the same
maxima. -/
def starTopology (env : MathEnv) (nodes : List NetworkNode)
    (centerNodeId : String) : StarOutcome :=
  let centerX : ℚ := 500
  let centerY : ℚ := 400
  let radius : ℚ := 250
  match nodes.find? (fun n => n.id = centerNodeId) with
  | none => StarOutcome.thrown ("Center node " ++ centerNodeId ++ " not found")
  | some centerNode =>
    let peripheralNodes := nodes.filter (fun n => n.id ≠ centerNodeId)
    let centerWidth : ℚ := 120
    let centerHeight : ℚ := 120
    let centerPlace : String × Rect :=
      (centerNode.id,
        ⟨centerX - centerWidth / 2, centerY - centerHeight / 2, centerWidth,
          centerHeight⟩)
    let periphPlaces :=
      peripheralNodes.enum.map (fun ni =>
        let angle :=
          2 * env.piq * (ni.1 : ℚ) / (peripheralNodes.length : ℚ) -
            env.piq / 2
        let width : ℚ := 100
        let height : ℚ := 100
        let x := centerX + radius * env.cosq angle - width / 2
        let y := centerY + radius * env.sinq angle - height / 2
        (ni.2.id, (⟨x, y, width, height⟩ : Rect)))
    StarOutcome.ok
      (finishLayout (foldPlace (centerPlace :: periphPlaces) ⟨[], 0, 0⟩))

/-- `ringTopology`: all nodes evenly on one circle. -/
def ringTopology (env : MathEnv) (nodes : List NetworkNode) : LayoutResult :=
  let centerX : ℚ := 500
  let centerY : ℚ := 400
  let radius : ℚ := 250
  let places :=
    nodes.enum.map (fun ni =>
      let angle := 2 * env.piq * (ni.1 : ℚ) / (nodes.length : ℚ) - env.piq / 2
      let width : ℚ := 100
      let height : ℚ := 100
      let x := centerX + radius * env.cosq angle - width / 2
      let y := centerY + radius * env.sinq angle - height / 2
      (ni.2.id, (⟨x, y, width, height⟩ : Rect)))
  finishLayout (foldPlace places ⟨[], 0, 0⟩)

/-- `meshTopology`: converts to generic nodes/edges (100×100) and defers to
`forceDirectedLayout` with topology-tuned constants. -/
def meshTopology (env : MathEnv) (nodes : List NetworkNode)
    (links : List NetworkLink) : Option LayoutResult :=
  let layoutNodes : List Node :=
    nodes.map (fun n => { id := n.id, width := some 100, height := some 100 })
  let layoutEdges : List Edge := links.map (fun l => ⟨l.from', l.to'⟩)
  forceDirectedLayout layoutNodes layoutEdges
    { iterations := some 150, repulsion := some 6000, attraction := some (3 / 200) }
    env

/-- `treeTopology`: BFS levels from the explicit root (fixed 100×100 nodes,
never consults a node map, so it cannot crash). -/
def treeTopology (nodes : List NetworkNode) (links : List NetworkLink)
    (rootNodeId : String) : LayoutResult :=
  let spacing : ℚ := 180
  let verticalSpacing : ℚ := 150
  let startY : ℚ := 100
  let children :=
    links.foldl
      (fun m l => jsSet m l.from' ((jsGet m l.from').getD [] ++ [l.to'])) []
  let levels :=
    bfsLevels children (nodes.length + links.length + 1) [(rootNodeId, 0)] [] []
  let places :=
    levels.enum.foldl
      (fun (acc : List (String × Rect)) li =>
        let y := startY + (li.1 : ℚ) * verticalSpacing
        let totalWidth := (li.2.length : ℚ) * spacing
        let startX := 500 - totalWidth / 2
        acc ++
          li.2.enum.map (fun ni =>
            (ni.2, (⟨startX + (ni.1 : ℚ) * spacing, y, 100, 100⟩ : Rect))))
      []
  finishLayout (foldPlace places ⟨[], 0, 0⟩)

/-- `busTopology`: nodes evenly spaced above a horizontal backbone. -/
def busTopology (nodes : List NetworkNode) : LayoutResult :=
  let busStartX : ℚ := 200
  let busEndX : ℚ := 1800
  let busY : ℚ := 400
  let nodeOffset : ℚ := 150
  let spacing := (busEndX - busStartX) / (max ((nodes.length : ℚ) - 1) 1)
  let places :=
    nodes.enum.map (fun ni =>
      let width : ℚ := 100
      let height : ℚ := 100
      let x := busStartX + (ni.1 : ℚ) * spacing - width / 2
      let y := busY - nodeOffset - height / 2
      (ni.2.id, (⟨x, y, width, height⟩ : Rect)))
  let acc := foldPlace places ⟨[], 0, 0⟩
  ⟨acc.nodes, ⟨max acc.maxX busEndX + 100, busY + 100⟩⟩

/-- The five network topology kinds accepted by the tool handler. -/
inductive NetworkTopology
  | star
  | ring
  | mesh
  | tree
  | bus
deriving DecidableEq, Repr

/-- Outcome of the handler's layout phase: a value-level failure record
(`{ success: false, message }`) or a layout. -/
inductive PhaseOutcome
  | failure (msg : String)
  | ok (r : LayoutResult)
deriving DecidableEq, Repr

/-- The host TypeError message produced when `forceDirectedLayout` crashes
inside `meshTopology`; its exact text is engine-specific and no claim
depends on it. -/
def typeErrorText : String := "TypeError"

/-- The layout-selection phase of `handleCreateNetworkDiagram`
(the `switch (args.topology)` wrapped in `try/catch`): missing anchor ids
are rejected up front as value-level failures, and any exception thrown by
a topology function is caught and converted to a
`{ success: false, message: "Layout error: ..." }` result.  (JavaScript
`!args.centerNodeId` is also true for the empty string.) -/
def networkLayoutPhase (env : MathEnv) (topology : NetworkTopology)
    (nodes : List NetworkNode) (links : List NetworkLink)
    (centerNodeId rootNodeId : Option String) : PhaseOutcome :=
  match topology with
  | NetworkTopology.star =>
    match centerNodeId with
    | none => PhaseOutcome.failure "Star topology requires centerNodeId parameter"
    | some cid =>
      if cid = "" then
        PhaseOutcome.failure "Star topology requires centerNodeId parameter"
      else
        match starTopology env nodes cid with
        | StarOutcome.thrown msg => PhaseOutcome.failure ("Layout error: " ++ msg)
        | StarOutcome.ok r => PhaseOutcome.ok r
  | NetworkTopology.ring => PhaseOutcome.ok (ringTopology env nodes)
  | NetworkTopology.mesh =>
    match meshTopology env nodes links with
    | none => PhaseOutcome.failure ("Layout error: " ++ typeErrorText)
    | some r => PhaseOutcome.ok r
  | NetworkTopology.tree =>
    match rootNodeId with
    | none => PhaseOutcome.failure "Tree topology requires rootNodeId parameter"
    | some rid =>
      if rid = "" then
        PhaseOutcome.failure "Tree topology requires rootNodeId parameter"
      else PhaseOutcome.ok (treeTopology nodes links rid)
  | NetworkTopology.bus => PhaseOutcome.ok (busTopology nodes)

/-! ### Diagram quality analyzer / beautifier (`beautifyDiagram`) -/

/-- The canvas tool/element kinds (`ToolType` of `lib/types.ts`). -/
inductive ToolType
  | selection
  | hand
  | rectangle
  | ellipse
  | diamond
  | arrow
  | line
  | freedraw
  | text
  | image
  | eraser
  | connector
deriving DecidableEq, Repr

/-- The fields of `CanvasElement` read by the analyzer and beautifier
(`type` is a Lean keyword, hence `type'`; styling fields are never read
here and are omitted). -/
structure CanvasElem where
  id : String
  type' : ToolType
  x : ℚ
  y : ℚ
  width : ℚ
  height : ℚ
deriving DecidableEq, Repr

/-- `e.type === "rectangle" || e.type === "ellipse" || e.type === "diamond"`. -/
def isShapeType (e : CanvasElem) : Bool :=
  e.type' = ToolType.rectangle || e.type' = ToolType.ellipse ||
    e.type' = ToolType.diamond

/-- `isOverlapping` of the analyzer: negated separating-strip test on the
axis-aligned boxes. -/
def isOverlapping (a b : CanvasElem) : Bool :=
  !(decide (a.x + a.width < b.x) || decide (b.x + b.width < a.x) ||
    decide (a.y + a.height < b.y) || decide (b.y + b.height < a.y))

/-- The squared center-to-center distance; `getDistance` of the source is
`Math.sqrt` of this, and its comparisons `getDistance a b < c` (`c ≥ 0`)
are translated to the exact equivalent `distanceSq a b < c * c`. -/
def distanceSq (a b : CanvasElem) : ℚ :=
  let dx := (b.x + b.width / 2) - (a.x + a.width / 2)
  let dy := (b.y + b.height / 2) - (a.y + a.height / 2)
  dx * dx + dy * dy

/-- One element of the `Partial<CanvasElement>[]` update list returned by
`beautifyDiagram`: an id plus the coordinate fields present in the
update. -/
structure ElementUpdate where
  id : String
  x : Option ℚ
  y : Option ℚ
deriving DecidableEq, Repr

/-- The greedy grouping loop of `beautifyDiagram`: each shape joins the
first existing group whose first member is within `threshold` of its `x`,
else it opens a new group at the end.  (Groups are never empty; the `[]`
group case is unreachable.) -/
def addToGroupB (threshold : ℚ) : List (List CanvasElem) → CanvasElem →
    List (List CanvasElem)
  | [], s => [[s]]
  | ([] : List CanvasElem) :: gs, s => [] :: addToGroupB threshold gs s
  | (f :: rest) :: gs, s =>
    if |s.x - f.x| < threshold then (f :: rest ++ [s]) :: gs
    else (f :: rest) :: addToGroupB threshold gs s

/-- The per-group body of `beautifyDiagram`'s alignment loop: for a group
of at least two members, snap every member within the threshold of the
group's mean `x` to `Math.round(avgX)`; smaller groups contribute no
updates. -/
def alignUpdatesOfGroup (g : List CanvasElem) : List ElementUpdate :=
  if 2 ≤ g.length then
    let avgX := (g.foldl (fun sum s => sum + s.x) 0) / (g.length : ℚ)
    g.foldl
      (fun (u : List ElementUpdate) e =>
        if |e.x - avgX| < 15 then u ++ [⟨e.id, some (jsRound avgX), none⟩]
        else u)
      []
  else []

/-- The per-pair body of `beautifyDiagram`'s spacing loop: an under-spaced
(`getDistance < 80`, translated exactly to `distanceSq < 6400`) and
non-overlapping pair pushes the second member to distance 80 from the
first along their connecting vector
(`Math.cos(Math.atan2(dy, dx)) = dx / √(dx² + dy²)`, and likewise for
`sin`; `sqrtq` stands for `Math.sqrt`). -/
def spacingUpdate (sqrtq : ℚ → ℚ) (p : CanvasElem × CanvasElem) :
    List ElementUpdate :=
  if decide (distanceSq p.1 p.2 < 6400) && !isOverlapping p.1 p.2 then
    let aCx := p.1.x + p.1.width / 2
    let aCy := p.1.y + p.1.height / 2
    let bCx := p.2.x + p.2.width / 2
    let bCy := p.2.y + p.2.height / 2
    let dx := bCx - aCx
    let dy := bCy - aCy
    let dist := sqrtq (dx * dx + dy * dy)
    let newBCenterX := aCx + dx / dist * 80
    let newBCenterY := aCy + dy / dist * 80
    [⟨p.2.id, some (jsRound (newBCenterX - p.2.width / 2)),
      some (jsRound (newBCenterY - p.2.height / 2))⟩]
  else []

/-- `beautifyDiagram` of the quality analyzer: snap near-aligned groups to
their rounded mean `x` (bucketing threshold 15), then push each
under-spaced non-overlapping pair apart to the 80px floor.  Each loop
appends the updates contributed by one group (`alignUpdatesOfGroup`) or
one pair (`spacingUpdate`), in source order. -/
def beautifyDiagram (sqrtq : ℚ → ℚ) (elements : List CanvasElem) :
    List ElementUpdate :=
  let shapes := elements.filter isShapeType
  let groups := shapes.foldl (addToGroupB 15) []
  let updates1 :=
    groups.foldl
      (fun (upds : List ElementUpdate) g => upds ++ alignUpdatesOfGroup g) []
  (upairs shapes).foldl
    (fun (upds : List ElementUpdate) p => upds ++ spacingUpdate sqrtq p)
    updates1

/-- Modelled from the spec: the caller-side application of the
`Partial<CanvasElement>[]` returned by `beautify` ("applying the position
updates returned by beautify to the shapes") — the store bridge that merges
each update into the element with the matching id is not among the
provided sources, so it is modelled as the standard by-id merge: each
update overwrites the coordinate fields it carries, later updates
overriding earlier ones. -/
def applyUpdates (elements : List CanvasElem) (updates : List ElementUpdate) :
    List CanvasElem :=
  elements.map (fun el =>
    updates.foldl
      (fun acc u =>
        if u.id = acc.id then
          { acc with x := u.x.getD acc.x, y := u.y.getD acc.y }
        else acc)
      el)

/-! ### Connector path router (smart-connector utilities) -/

/-- `HandlePosition` of `lib/types.ts`. -/
inductive HandlePosition
  | top
  | right
  | bottom
  | left
deriving DecidableEq, Repr

/-- The handle pair returned by the auto-handle helpers. -/
structure HandlePair where
  sourceHandle : HandlePosition
  targetHandle : HandlePosition
deriving DecidableEq, Repr

/-- `ElementPosition` of `connection-helpers.ts`. -/
structure ElementPosition where
  x : ℚ
  y : ℚ
  width : ℚ
  height : ℚ
deriving DecidableEq, Repr

/-- `calculateAutoHandles` of `connection-helpers.ts`: primary direction by
comparing `|dy|` against `|dx|`. -/
def calculateAutoHandles (source target : ElementPosition) : HandlePair :=
  let sourceCenterX := source.x + source.width / 2
  let sourceCenterY := source.y + source.height / 2
  let targetCenterX := target.x + target.width / 2
  let targetCenterY := target.y + target.height / 2
  let dx := targetCenterX - sourceCenterX
  let dy := targetCenterY - sourceCenterY
  if |dy| > |dx| then
    if dy > 0 then ⟨HandlePosition.bottom, HandlePosition.top⟩
    else ⟨HandlePosition.top, HandlePosition.bottom⟩
  else
    if dx > 0 then ⟨HandlePosition.right, HandlePosition.left⟩
    else ⟨HandlePosition.left, HandlePosition.right⟩

/-- `autoHandlePositions` of the smart-connector utilities: the same
comparison on `CanvasElement` records. -/
def autoHandlePositions (source target : CanvasElem) : HandlePair :=
  let sourceCenterX := source.x + source.width / 2
  let sourceCenterY := source.y + source.height / 2
  let targetCenterX := target.x + target.width / 2
  let targetCenterY := target.y + target.height / 2
  let dx := targetCenterX - sourceCenterX
  let dy := targetCenterY - sourceCenterY
  if |dy| > |dx| then
    if dy > 0 then ⟨HandlePosition.bottom, HandlePosition.top⟩
    else ⟨HandlePosition.top, HandlePosition.bottom⟩
  else
    if dx > 0 then ⟨HandlePosition.right, HandlePosition.left⟩
    else ⟨HandlePosition.left, HandlePosition.right⟩

/-- The spec's `autoAnchor` rule, stated for comparison with the code (this
is the one definition written from the specification text, not from the
source): compare `|Δx|` against `|Δy|·1.5` and `|Δy|` against `|Δx|·1.5`;
return an opposing pair for the clearly horizontal/vertical cases and
signal the diagonal case otherwise. -/
inductive SpecAnchorResult
  | horizontal (p : HandlePair)
  | vertical (p : HandlePair)
  | diagonal
deriving DecidableEq, Repr

/-- The spec's biased threshold rule for automatic handle selection. -/
def specAutoAnchorRule (source target : ElementPosition) : SpecAnchorResult :=
  let dx := (target.x + target.width / 2) - (source.x + source.width / 2)
  let dy := (target.y + target.height / 2) - (source.y + source.height / 2)
  if |dx| > |dy| * (3 / 2) then
    SpecAnchorResult.horizontal
      (if dx > 0 then ⟨HandlePosition.right, HandlePosition.left⟩
       else ⟨HandlePosition.left, HandlePosition.right⟩)
  else if |dy| > |dx| * (3 / 2) then
    SpecAnchorResult.vertical
      (if dy > 0 then ⟨HandlePosition.bottom, HandlePosition.top⟩
       else ⟨HandlePosition.top, HandlePosition.bottom⟩)
  else SpecAnchorResult.diagonal

/-- `getControlPointDirection`: the outward normal of a handle side. -/
def getControlPointDirection (handle : HandlePosition) : Pt :=
  match handle with
  | HandlePosition.top => ⟨0, -1⟩
  | HandlePosition.bottom => ⟨0, 1⟩
  | HandlePosition.left => ⟨-1, 0⟩
  | HandlePosition.right => ⟨1, 0⟩

/-- The data carried by the bezier path of `getBezierPath`: the `M`/`C`
command coordinates of the emitted SVG string plus the label position. -/
structure BezierPathData where
  p0 : Pt
  c1 : Pt
  c2 : Pt
  p3 : Pt
  labelX : ℚ
  labelY : ℚ
deriving DecidableEq, Repr

/-- `getBezierPath` of the smart-connector utilities: control points pushed
out along each handle's outward normal by `min(distance * 0.5, 100)`;
label at `(P0 + 3C1 + 3C2 + P3) / 8`.  `sqrtq` stands for `Math.sqrt`. -/
def getBezierPath (sqrtq : ℚ → ℚ) (sourceX sourceY targetX targetY : ℚ)
    (sourceHandle targetHandle : HandlePosition) : BezierPathData :=
  let sourceDir := getControlPointDirection sourceHandle
  let targetDir := getControlPointDirection targetHandle
  let dx := |targetX - sourceX|
  let dy := |targetY - sourceY|
  let distance := sqrtq (dx * dx + dy * dy)
  let offset := min (distance * (1 / 2)) 100
  let cp1x := sourceX + sourceDir.x * offset
  let cp1y := sourceY + sourceDir.y * offset
  let cp2x := targetX + targetDir.x * offset
  let cp2y := targetY + targetDir.y * offset
  let labelX := (sourceX + 3 * cp1x + 3 * cp2x + targetX) / 8
  let labelY := (sourceY + 3 * cp1y + 3 * cp2y + targetY) / 8
  ⟨⟨sourceX, sourceY⟩, ⟨cp1x, cp1y⟩, ⟨cp2x, cp2y⟩, ⟨targetX, targetY⟩,
    labelX, labelY⟩

/-- A point of the standard cubic Bezier curve with control polygon
`p0 c1 c2 p3` at parameter `t`. -/
def cubicBezier (p0 c1 c2 p3 : Pt) (t : ℚ) : Pt :=
  ⟨(1 - t) ^ 3 * p0.x + 3 * (1 - t) ^ 2 * t * c1.x +
      3 * (1 - t) * t ^ 2 * c2.x + t ^ 3 * p3.x,
    (1 - t) ^ 3 * p0.y + 3 * (1 - t) ^ 2 * t * c1.y +
      3 * (1 - t) * t ^ 2 * c2.y + t ^ 3 * p3.y⟩

/-- One command of an emitted SVG path: move, line, or quadratic arc. -/
inductive PathCmd
  | M (p : Pt)
  | L (p : Pt)
  | Q (c p : Pt)
deriving DecidableEq, Repr

/-- The per-vertex body of `buildRoundedPath`'s corner loop: at an interior
vertex, emit a line to the arc start and a quadratic arc through the
vertex, with radius clamped to half the shorter adjacent segment; fall
back to a plain line when either adjacent segment has zero length. -/
def corner (sqrtq : ℚ → ℚ) (prev curr next : Pt) (radius : ℚ) :
    List PathCmd :=
  let v1 : Pt := ⟨curr.x - prev.x, curr.y - prev.y⟩
  let v2 : Pt := ⟨next.x - curr.x, next.y - curr.y⟩
  let len1 := sqrtq (v1.x * v1.x + v1.y * v1.y)
  let len2 := sqrtq (v2.x * v2.x + v2.y * v2.y)
  if len1 = 0 ∨ len2 = 0 then [PathCmd.L curr]
  else
    let maxRadius := min len1 len2 / 2
    let r := min radius maxRadius
    [PathCmd.L ⟨curr.x - v1.x / len1 * r, curr.y - v1.y / len1 * r⟩,
      PathCmd.Q curr ⟨curr.x + v2.x / len2 * r, curr.y + v2.y / len2 * r⟩]

/-- The consecutive `(prev, curr, next)` triples of a point list: one per
interior vertex. -/
def triples : List Pt → List (Pt × Pt × Pt)
  | p0 :: p1 :: p2 :: rest => (p0, p1, p2) :: triples (p1 :: p2 :: rest)
  | _ => []

/-- `buildRoundedPath`: an SVG path visiting the given points with a
rounded corner inserted at each interior vertex. -/
def buildRoundedPath (sqrtq : ℚ → ℚ) (points : List Pt) (radius : ℚ) :
    List PathCmd :=
  match points with
  | [] => []
  | [_] => []
  | [p0, p1] => [PathCmd.M p0, PathCmd.L p1]
  | p0 :: rest =>
    PathCmd.M p0 ::
      ((triples (p0 :: rest)).flatMap (fun t => corner sqrtq t.1 t.2.1 t.2.2 radius) ++
        [PathCmd.L ((p0 :: rest).getLast (by simp))])

/-- The result of `getSmoothStepPath`: the rounded orthogonal path plus the
label position. -/
structure SmoothStepResult where
  path : List PathCmd
  labelX : ℚ
  labelY : ℚ
deriving DecidableEq, Repr

/-- `getSmoothStepPath`: a 4-point Manhattan route through the
perpendicular midpoint for canonical opposing handle pairs, otherwise a
step route built from each handle's outward offset; corners rounded by
`buildRoundedPath`.  The label sits at the midpoint of the middle
segment. -/
def getSmoothStepPath (sqrtq : ℚ → ℚ) (sourceX sourceY targetX targetY : ℚ)
    (sourceHandle targetHandle : HandlePosition) (borderRadius : ℚ) :
    SmoothStepResult :=
  let sourceDir := getControlPointDirection sourceHandle
  let targetDir := getControlPointDirection targetHandle
  let dx := targetX - sourceX
  let dy := targetY - sourceY
  let offset := max |dx| |dy| * (3 / 10) + 20
  let points : List Pt :=
    if sourceHandle = HandlePosition.bottom ∧ targetHandle = HandlePosition.top then
      let midY := sourceY + (targetY - sourceY) / 2
      [⟨sourceX, sourceY⟩, ⟨sourceX, midY⟩, ⟨targetX, midY⟩, ⟨targetX, targetY⟩]
    else if sourceHandle = HandlePosition.top ∧ targetHandle = HandlePosition.bottom then
      let midY := sourceY + (targetY - sourceY) / 2
      [⟨sourceX, sourceY⟩, ⟨sourceX, midY⟩, ⟨targetX, midY⟩, ⟨targetX, targetY⟩]
    else if sourceHandle = HandlePosition.right ∧ targetHandle = HandlePosition.left then
      let midX := sourceX + (targetX - sourceX) / 2
      [⟨sourceX, sourceY⟩, ⟨midX, sourceY⟩, ⟨midX, targetY⟩, ⟨targetX, targetY⟩]
    else if sourceHandle = HandlePosition.left ∧ targetHandle = HandlePosition.right then
      let midX := sourceX + (targetX - sourceX) / 2
      [⟨sourceX, sourceY⟩, ⟨midX, sourceY⟩, ⟨midX, targetY⟩, ⟨targetX, targetY⟩]
    else
      [⟨sourceX, sourceY⟩,
        ⟨sourceX + sourceDir.x * offset, sourceY + sourceDir.y * offset⟩,
        ⟨targetX + targetDir.x * offset, targetY + targetDir.y * offset⟩,
        ⟨targetX, targetY⟩]
  let path := buildRoundedPath sqrtq points borderRadius
  -- `midIndex = ⌊4 / 2⌋ = 2`; label between points[1] and points[2].
  let labelX := ((points.getD 1 ⟨0, 0⟩).x + (points.getD 2 ⟨0, 0⟩).x) / 2
  let labelY := ((points.getD 1 ⟨0, 0⟩).y + (points.getD 2 ⟨0, 0⟩).y) / 2
  ⟨path, labelX, labelY⟩

/-! ### Flowchart node sizing (`flowchart-layouts.ts`) -/

/-- `FlowchartNodeType`. -/
inductive FlowchartNodeType
  | start
  | stop
  | process
  | decision
  | data
  | document
deriving DecidableEq, Repr

/-- `NODE_DIMENSIONS` (the source's `end` key is a Lean keyword, rendered
`stop`): base width and height per node type. -/
def NODE_DIMENSIONS (t : FlowchartNodeType) : ℚ × ℚ :=
  match t with
  | FlowchartNodeType.start => (140, 50)
  | FlowchartNodeType.stop => (140, 50)
  | FlowchartNodeType.process => (180, 60)
  | FlowchartNodeType.decision => (160, 80)
  | FlowchartNodeType.data => (180, 60)
  | FlowchartNodeType.document => (180, 70)

/-- `calculateNodeWidth` of `flowchart-layouts.ts`: text-adaptive width,
8px per character plus 40px padding, at least the base width and at most
280px. -/
def calculateNodeWidth (label : String) (baseWidth : ℚ) : ℚ :=
  let charWidth : ℚ := 8
  let padding : ℚ := 40
  let textWidth := (label.length : ℚ) * charWidth + padding
  max baseWidth (min textWidth 280)


/-! ### Derived notions used by the claim statements -/

/-- Bucket `l` of a BFS level table (missing buckets are empty). -/
def levelAt (levels : List (List String)) (l : ℕ) : List String :=
  levels.getD l []

/-- The stored children of `p` in an adjacency map. -/
def childrenOf (children : List (String × List String)) (p : String) :
    List String :=
  (jsGet children p).getD []

/-- Every placed rectangle fits inside the result bounds with at least the
100px margin: `x + width + 100 ≤ bounds.width` and
`y + height + 100 ≤ bounds.height`. -/
def containedWithMargin (r : LayoutResult) : Prop :=
  ∀ p ∈ r.nodes,
    p.2.x + p.2.width + 100 ≤ r.bounds.width ∧
      p.2.y + p.2.height + 100 ≤ r.bounds.height

instance (r : LayoutResult) : Decidable (containedWithMargin r) := by
  unfold containedWithMargin
  infer_instance

/-! ## Claim theorems -/

/-! ### C9 — flowchart node width clamping -/

/-- C9 (amended): for every flowchart node type and label, the computed
width is at least the type's base width (hence at least 140) and at most
280; the lower clamp is the per-type base width, not 150 (start/end nodes
have base width 140). -/
theorem calculateNodeWidth_clamped (t : FlowchartNodeType) (label : String) :
    (NODE_DIMENSIONS t).1 ≤ calculateNodeWidth label (NODE_DIMENSIONS t).1 ∧
      calculateNodeWidth label (NODE_DIMENSIONS t).1 ≤ 280 ∧
      140 ≤ calculateNodeWidth label (NODE_DIMENSIONS t).1 := by
  unfold calculateNodeWidth
  refine ⟨le_max_left _ _, max_le ?_ (min_le_right _ _),
    le_trans ?_ (le_max_left _ _)⟩ <;> cases t <;> norm_num [NODE_DIMENSIONS]

/-- C9 (counterexample): a `start` step with a one-character label gets
width 140, below the claimed lower clamp of 150. -/
theorem calculateNodeWidth_below_150 :
    calculateNodeWidth "A" (NODE_DIMENSIONS FlowchartNodeType.start).1 = 140 ∧
      ¬(150 : ℚ) ≤ calculateNodeWidth "A" (NODE_DIMENSIONS FlowchartNodeType.start).1 := by
  have hA : "A".length = 1 := rfl
  constructor <;> norm_num [calculateNodeWidth, NODE_DIMENSIONS, hA]

/-! ### C5 — automatic handle selection -/

/-- C5 (amended): both auto-handle helpers compare `|Δy|` against `|Δx|`
directly (no 1.5 bias): they return the opposing vertical pair when
`|Δy| > |Δx|`, and the opposing horizontal pair otherwise — in particular
ties go to the horizontal pair — and they never signal a diagonal case;
the two implementations agree on equal geometry. -/
theorem autoHandles_unbiased (source target : ElementPosition)
    (a b : CanvasElem) :
    calculateAutoHandles source target =
      (if |(target.y + target.height / 2) - (source.y + source.height / 2)| >
          |(target.x + target.width / 2) - (source.x + source.width / 2)| then
        if (target.y + target.height / 2) - (source.y + source.height / 2) > 0
          then ⟨HandlePosition.bottom, HandlePosition.top⟩
          else ⟨HandlePosition.top, HandlePosition.bottom⟩
      else
        if (target.x + target.width / 2) - (source.x + source.width / 2) > 0
          then ⟨HandlePosition.right, HandlePosition.left⟩
          else ⟨HandlePosition.left, HandlePosition.right⟩) ∧
    autoHandlePositions a b =
      calculateAutoHandles ⟨a.x, a.y, a.width, a.height⟩
        ⟨b.x, b.y, b.width, b.height⟩ := by
  exact ⟨rfl, rfl⟩

/-- C5 (counterexample): at `Δx = 100, Δy = 80` the spec's 1.5-biased rule
signals the diagonal case, but `calculateAutoHandles` returns the opposing
horizontal pair. -/
theorem autoHandles_spec_mismatch :
    calculateAutoHandles ⟨0, 0, 0, 0⟩ ⟨100, 80, 0, 0⟩ =
      ⟨HandlePosition.right, HandlePosition.left⟩ ∧
    specAutoAnchorRule ⟨0, 0, 0, 0⟩ ⟨100, 80, 0, 0⟩ =
      SpecAnchorResult.diagonal := by
  constructor
  · norm_num [calculateAutoHandles]
  · norm_num [specAutoAnchorRule]

/-! ### C3 — star topology with a missing center node -/

/-- C3 (counterexample): `starTopology` reports a missing center node by
throwing an `Error`, not by returning a value-level result. -/
theorem starTopology_throws_on_missing_center :
    starTopology trivEnv [⟨"A"⟩] "H" =
      StarOutcome.thrown "Center node H not found" := by
  decide

/-- C3 (amended): when the star topology is invoked with a `centerNodeId`
naming no node, `starTopology` itself throws an `Error`; the network
diagram tool handler catches the throw and surfaces it as a value-level
`{ success: false, message: "Layout error: ..." }` result. -/
theorem networkPhase_star_missing_center (env : MathEnv)
    (nodes : List NetworkNode) (links : List NetworkLink)
    (rootId : Option String) (cid : String) (hne : cid ≠ "")
    (habs : ∀ n ∈ nodes, n.id ≠ cid) :
    starTopology env nodes cid =
      StarOutcome.thrown ("Center node " ++ cid ++ " not found") ∧
    networkLayoutPhase env NetworkTopology.star nodes links (some cid) rootId =
      PhaseOutcome.failure ("Layout error: Center node " ++ cid ++ " not found") := by
  have hfind : nodes.find? (fun n => n.id = cid) = none := by
    rw [List.find?_eq_none]
    intro n hn
    simpa using habs n hn
  have hstar : starTopology env nodes cid =
      StarOutcome.thrown ("Center node " ++ cid ++ " not found") := by
    unfold starTopology
    rw [hfind]
  refine ⟨hstar, ?_⟩
  unfold networkLayoutPhase
  dsimp only
  rw [if_neg hne, hstar]
  dsimp only
  simp only [← String.append_assoc]
  rfl

/-- Witness for `networkPhase_star_missing_center` at a concrete input. -/
theorem networkPhase_star_missing_center_witness :
    starTopology trivEnv [⟨"A"⟩] "H" =
      StarOutcome.thrown ("Center node " ++ "H" ++ " not found") ∧
    networkLayoutPhase trivEnv NetworkTopology.star [⟨"A"⟩] [] (some "H") none =
      PhaseOutcome.failure ("Layout error: Center node " ++ "H" ++ " not found") :=
  networkPhase_star_missing_center trivEnv [⟨"A"⟩] [] none "H" (by decide)
    (by decide)

/-! ### C7 — bezier control points and label midpoint -/

/-- C7: the bezier control points are offset from each anchor along its
handle's outward normal by `min(distance * 0.5, 100)`, and the label is the
cubic curve's true midpoint `B(1/2) = (P0 + 3C1 + 3C2 + P3)/8`; at the
concrete asymmetric input `(0,0) right → (100,0) top` the label's `y` is
`-75/4`, while the linear midpoint of the anchors has `y = 0`, so the label
is not the linear midpoint. -/
theorem getBezierPath_midpoint (sq : ℚ → ℚ) (sx sy tx ty : ℚ)
    (hs ht : HandlePosition) :
    (getBezierPath sq sx sy tx ty hs ht).c1 =
      ⟨sx + (getControlPointDirection hs).x *
          min (sq (|tx - sx| * |tx - sx| + |ty - sy| * |ty - sy|) * (1 / 2)) 100,
        sy + (getControlPointDirection hs).y *
          min (sq (|tx - sx| * |tx - sx| + |ty - sy| * |ty - sy|) * (1 / 2)) 100⟩ ∧
    (getBezierPath sq sx sy tx ty hs ht).c2 =
      ⟨tx + (getControlPointDirection ht).x *
          min (sq (|tx - sx| * |tx - sx| + |ty - sy| * |ty - sy|) * (1 / 2)) 100,
        ty + (getControlPointDirection ht).y *
          min (sq (|tx - sx| * |tx - sx| + |ty - sy| * |ty - sy|) * (1 / 2)) 100⟩ ∧
    cubicBezier (getBezierPath sq sx sy tx ty hs ht).p0
        (getBezierPath sq sx sy tx ty hs ht).c1
        (getBezierPath sq sx sy tx ty hs ht).c2
        (getBezierPath sq sx sy tx ty hs ht).p3 (1 / 2) =
      ⟨(getBezierPath sq sx sy tx ty hs ht).labelX,
        (getBezierPath sq sx sy tx ty hs ht).labelY⟩ ∧
    (getBezierPath (fun _ => 100) 0 0 100 0 HandlePosition.right
        HandlePosition.top).labelY = -75 / 4 ∧
    ((0 : ℚ) + 0) / 2 ≠ -75 / 4 := by
  refine ⟨rfl, rfl, ?_, by norm_num [getBezierPath, getControlPointDirection],
    by norm_num⟩
  unfold getBezierPath cubicBezier
  dsimp only
  simp only [Pt.mk.injEq]
  constructor <;> ring

/-! ### C6 — rounded-corner radius clamp -/

/-- C6: at every interior vertex of a rounded path whose adjacent segment
lengths are nonzero, the inserted arc uses radius
`r = min(requestedRadius, min(len1, len2)/2)`; in particular `2r ≤ len1`
and `2r ≤ len2`, so the radius never exceeds half of either adjacent
segment length.  (`buildRoundedPath` emits exactly `corner` at each
interior vertex, and `getSmoothStepPath` rounds all its orthogonal paths
through `buildRoundedPath`.) -/
theorem corner_radius_clamp (sq : ℚ → ℚ) (prev curr next : Pt) (radius : ℚ)
    (h1 : sq ((curr.x - prev.x) * (curr.x - prev.x) +
        (curr.y - prev.y) * (curr.y - prev.y)) ≠ 0)
    (h2 : sq ((next.x - curr.x) * (next.x - curr.x) +
        (next.y - curr.y) * (next.y - curr.y)) ≠ 0) :
    ∃ r : ℚ,
      r = min radius
          (min (sq ((curr.x - prev.x) * (curr.x - prev.x) +
              (curr.y - prev.y) * (curr.y - prev.y)))
            (sq ((next.x - curr.x) * (next.x - curr.x) +
              (next.y - curr.y) * (next.y - curr.y))) / 2) ∧
      corner sq prev curr next radius =
        [PathCmd.L
            ⟨curr.x - (curr.x - prev.x) /
                sq ((curr.x - prev.x) * (curr.x - prev.x) +
                  (curr.y - prev.y) * (curr.y - prev.y)) * r,
              curr.y - (curr.y - prev.y) /
                sq ((curr.x - prev.x) * (curr.x - prev.x) +
                  (curr.y - prev.y) * (curr.y - prev.y)) * r⟩,
          PathCmd.Q curr
            ⟨curr.x + (next.x - curr.x) /
                sq ((next.x - curr.x) * (next.x - curr.x) +
                  (next.y - curr.y) * (next.y - curr.y)) * r,
              curr.y + (next.y - curr.y) /
                sq ((next.x - curr.x) * (next.x - curr.x) +
                  (next.y - curr.y) * (next.y - curr.y)) * r⟩] ∧
      2 * r ≤ sq ((curr.x - prev.x) * (curr.x - prev.x) +
          (curr.y - prev.y) * (curr.y - prev.y)) ∧
      2 * r ≤ sq ((next.x - curr.x) * (next.x - curr.x) +
          (next.y - curr.y) * (next.y - curr.y)) := by
  refine ⟨_, rfl, ?_, ?_, ?_⟩
  · unfold corner
    rw [if_neg (by tauto)]
  · have h := min_le_left
      (sq ((curr.x - prev.x) * (curr.x - prev.x) +
        (curr.y - prev.y) * (curr.y - prev.y)))
      (sq ((next.x - curr.x) * (next.x - curr.x) +
        (next.y - curr.y) * (next.y - curr.y)))
    have h' := min_le_right radius
      (min (sq ((curr.x - prev.x) * (curr.x - prev.x) +
          (curr.y - prev.y) * (curr.y - prev.y)))
        (sq ((next.x - curr.x) * (next.x - curr.x) +
          (next.y - curr.y) * (next.y - curr.y))) / 2)
    linarith
  · have h := min_le_right
      (sq ((curr.x - prev.x) * (curr.x - prev.x) +
        (curr.y - prev.y) * (curr.y - prev.y)))
      (sq ((next.x - curr.x) * (next.x - curr.x) +
        (next.y - curr.y) * (next.y - curr.y)))
    have h' := min_le_right radius
      (min (sq ((curr.x - prev.x) * (curr.x - prev.x) +
          (curr.y - prev.y) * (curr.y - prev.y)))
        (sq ((next.x - curr.x) * (next.x - curr.x) +
          (next.y - curr.y) * (next.y - curr.y))) / 2)
    linarith

/-- Witness for `corner_radius_clamp` at a concrete right-angle corner. -/
theorem corner_radius_clamp_witness :
    ∃ r : ℚ,
      r = min 8 (min ((fun _ => (10 : ℚ)) ((0 - 0) * (0 - 0) + (10 - 0) * (10 - 0)))
          ((fun _ => (10 : ℚ)) ((10 - 0) * (10 - 0) + (10 - 10) * (10 - 10))) / 2) ∧
      corner (fun _ => (10 : ℚ)) ⟨0, 0⟩ ⟨0, 10⟩ ⟨10, 10⟩ 8 =
        [PathCmd.L
            ⟨0 - (0 - 0) / (fun _ => (10 : ℚ)) ((0 - 0) * (0 - 0) + (10 - 0) * (10 - 0)) * r,
              10 - (10 - 0) / (fun _ => (10 : ℚ)) ((0 - 0) * (0 - 0) + (10 - 0) * (10 - 0)) * r⟩,
          PathCmd.Q ⟨0, 10⟩
            ⟨0 + (10 - 0) / (fun _ => (10 : ℚ)) ((10 - 0) * (10 - 0) + (10 - 10) * (10 - 10)) * r,
              10 + (10 - 10) / (fun _ => (10 : ℚ)) ((10 - 0) * (10 - 0) + (10 - 10) * (10 - 10)) * r⟩] ∧
      2 * r ≤ (fun _ => (10 : ℚ)) ((0 - 0) * (0 - 0) + (10 - 0) * (10 - 0)) ∧
      2 * r ≤ (fun _ => (10 : ℚ)) ((10 - 0) * (10 - 0) + (10 - 10) * (10 - 10)) :=
  corner_radius_clamp (fun _ => (10 : ℚ)) ⟨0, 0⟩ ⟨0, 10⟩ ⟨10, 10⟩ 8
    (by norm_num) (by norm_num)

/-! ### C8 — determinism of the non-random layouts -/

/-- C8: the tree, circular, grid and rank-based (dagre-style) layouts do
not read the random stream of the ambient math environment: two calls with
identical node, edge and option inputs produce identical `LayoutResult`s
regardless of the PRNG state, i.e. there is no hidden randomness (only the
force-directed layouts consume `Math.random`). -/
theorem layouts_deterministic (nodes : List Node) (edges : List Edge)
    (options : LayoutOptions) (p : ℚ) (r₁ r₂ : ℕ → ℚ) (sq c si : ℚ → ℚ) :
    treeLayout nodes edges options ⟨p, r₁, sq, c, si⟩ =
      treeLayout nodes edges options ⟨p, r₂, sq, c, si⟩ ∧
    circularLayout nodes edges options ⟨p, r₁, sq, c, si⟩ =
      circularLayout nodes edges options ⟨p, r₂, sq, c, si⟩ ∧
    gridLayout nodes edges options ⟨p, r₁, sq, c, si⟩ =
      gridLayout nodes edges options ⟨p, r₂, sq, c, si⟩ ∧
    dagreLayout nodes edges options ⟨p, r₁, sq, c, si⟩ =
      dagreLayout nodes edges options ⟨p, r₂, sq, c, si⟩ :=
  ⟨rfl, rfl, rfl, rfl⟩


/-! ### C10 — positions are contained in the returned bounds -/

theorem mem_jsSet {κ α : Type} [DecidableEq κ] (m : List (κ × α)) (k : κ)
    (v : α) (e : κ × α) (h : e ∈ jsSet m k v) : e = (k, v) ∨ e ∈ m := by
  induction m with
  | nil =>
    simp only [jsSet, List.mem_singleton] at h
    exact Or.inl h
  | cons hd tl ih =>
    obtain ⟨k', v'⟩ := hd
    by_cases hk : k' = k
    · simp only [jsSet, if_pos hk, List.mem_cons] at h
      rcases h with h | h
      · exact Or.inl h
      · exact Or.inr (List.mem_cons_of_mem _ h)
    · simp only [jsSet, if_neg hk, List.mem_cons] at h
      rcases h with h | h
      · exact Or.inr (h ▸ List.mem_cons_self _ _)
      · rcases ih h with h' | h'
        · exact Or.inl h'
        · exact Or.inr (List.mem_cons_of_mem _ h')

theorem foldPlace_contained (ps : List (String × Rect)) (acc : PlaceAcc)
    (hinv : ∀ e ∈ acc.nodes,
      e.2.x + e.2.width ≤ acc.maxX ∧ e.2.y + e.2.height ≤ acc.maxY) :
    ∀ e ∈ (foldPlace ps acc).nodes,
      e.2.x + e.2.width ≤ (foldPlace ps acc).maxX ∧
        e.2.y + e.2.height ≤ (foldPlace ps acc).maxY := by
  induction ps generalizing acc with
  | nil => exact hinv
  | cons p ps ih =>
    have hstep : foldPlace (p :: ps) acc =
        foldPlace ps
          ⟨jsSet acc.nodes p.1 p.2, max acc.maxX (p.2.x + p.2.width),
            max acc.maxY (p.2.y + p.2.height)⟩ := rfl
    rw [hstep]
    refine ih _ ?_
    intro e he
    rcases mem_jsSet _ _ _ _ he with he' | he'
    · subst he'
      exact ⟨le_max_right _ _, le_max_right _ _⟩
    · obtain ⟨h1, h2⟩ := hinv e he'
      exact ⟨le_trans h1 (le_max_left _ _), le_trans h2 (le_max_left _ _)⟩

theorem containedWithMargin_finish (ps : List (String × Rect)) :
    containedWithMargin (finishLayout (foldPlace ps ⟨[], 0, 0⟩)) := by
  intro p hp
  have h := foldPlace_contained ps ⟨[], 0, 0⟩ (by intro e he; simp at he) p hp
  unfold finishLayout
  constructor
  · have := h.1
    dsimp only at this ⊢
    linarith
  · have := h.2
    dsimp only at this ⊢
    linarith

/-- C10: for every generic layout algorithm and every input (and every
ambient math environment), every rectangle in the returned position map
fits inside the returned bounds with at least the 100px margin:
`x + width + 100 ≤ bounds.width` and `y + height + 100 ≤ bounds.height`
(for the fallible algorithms, whenever the call returns a result at
all). -/
theorem layouts_contained_in_bounds (nodes : List Node) (edges : List Edge)
    (options : LayoutOptions) (env : MathEnv) :
    (∀ r, treeLayout nodes edges options env = some r →
      containedWithMargin r) ∧
    containedWithMargin (circularLayout nodes edges options env) ∧
    containedWithMargin (gridLayout nodes edges options env) ∧
    (∀ r, forceDirectedLayout nodes edges options env = some r →
      containedWithMargin r) ∧
    (∀ r, enhancedForceDirectedLayout nodes edges options env = some r →
      containedWithMargin r) ∧
    (∀ r, dagreLayout nodes edges options env = some r →
      containedWithMargin r) ∧
    (∀ r, radialLayout nodes edges options env = some r →
      containedWithMargin r) := by
  refine ⟨?_, ?_, ?_, ?_, ?_, ?_, ?_⟩
  · intro r h
    unfold treeLayout at h
    rw [Option.map_eq_some'] at h
    obtain ⟨ps, _, hr⟩ := h
    exact hr ▸ containedWithMargin_finish ps
  · exact containedWithMargin_finish _
  · exact containedWithMargin_finish _
  · intro r h
    unfold forceDirectedLayout at h
    simp only [bind, Option.bind_eq_some, Option.pure_def, Option.some.injEq]
      at h
    obtain ⟨positions, _, ps, _, hr⟩ := h
    exact hr ▸ containedWithMargin_finish ps
  · intro r h
    unfold enhancedForceDirectedLayout at h
    by_cases hPO : options.preventOverlap ≠ some false
    · simp only [bind, if_pos hPO, Option.bind_eq_some, Option.pure_def,
        Option.some.injEq] at h
      obtain ⟨final, _, positions, _, ps, _, hr⟩ := h
      exact hr ▸ containedWithMargin_finish ps
    · simp only [bind, if_neg hPO, Option.bind_eq_some, Option.some_bind,
        Option.pure_def, Option.some.injEq] at h
      obtain ⟨final, _, ps, _, hr⟩ := h
      exact hr ▸ containedWithMargin_finish ps
  · intro r h
    unfold dagreLayout at h
    simp only [bind, Option.bind_eq_some, Option.pure_def, Option.some.injEq]
      at h
    obtain ⟨ps, _, hr⟩ := h
    exact hr ▸ containedWithMargin_finish ps
  · intro r h
    unfold radialLayout at h
    simp only [bind, Option.bind_eq_some, Option.pure_def, Option.some.injEq]
      at h
    obtain ⟨ps, _, hr⟩ := h
    exact hr ▸ containedWithMargin_finish ps


/-- Witness for `layouts_contained_in_bounds`: at the empty input every
fallible layout returns `some ⟨[], ⟨100, 100⟩⟩`, whose rectangles (none)
all fit in the bounds; each `= some r` hypothesis is discharged by
evaluation. -/
theorem layouts_contained_in_bounds_witness :
    containedWithMargin (⟨[], ⟨100, 100⟩⟩ : LayoutResult) ∧
    containedWithMargin
      (circularLayout [] [] { iterations := some 1 } trivEnv) ∧
    containedWithMargin (gridLayout [] [] { iterations := some 1 } trivEnv) := by
  have h := layouts_contained_in_bounds [] [] { iterations := some 1 } trivEnv
  have h1 := h.1 ⟨[], ⟨100, 100⟩⟩ (by
    simp [treeLayout, treeLevels, bfsLevels, buildChildren, buildParents,
      foldPlace, finishLayout, jsOr])
  have h4 := h.2.2.2.1 ⟨[], ⟨100, 100⟩⟩ (by
    simp [forceDirectedLayout, fdLoop, fdStep, fdRepulsion, fdAttraction,
      fdApply, fdInitPositions, fdConvert, upairs, jsOrNat, foldPlace,
      finishLayout])
  have h5 := h.2.2.2.2.1 ⟨[], ⟨100, 100⟩⟩ (by
    simp [enhancedForceDirectedLayout, efdLoop, efdStep, efdRepulsion,
      efdAttraction, efdApply, efdOverlapPasses, efdOverlapPass, fdConvert,
      upairs, jsOrNat, jsOr, foldPlace, finishLayout])
  have h6 := h.2.2.2.2.2.1 ⟨[], ⟨100, 100⟩⟩ (by
    simp [dagreLayout, kahnAux, foldPlace, finishLayout, jsOr])
  have h7 := h.2.2.2.2.2.2 ⟨[], ⟨100, 100⟩⟩ (by
    simp [radialLayout, ringAux, foldPlace, finishLayout, jsOr, addUnique])
  exact ⟨h1, h.2.1, h.2.2.1⟩

/-! ### C1 — tree layout BFS leveling -/

theorem jsGet_jsSet_self {κ α : Type} [DecidableEq κ]
    (m : List (κ × α)) (k : κ) (v : α) : jsGet (jsSet m k v) k = some v := by
  induction m with
  | nil => simp [jsSet, jsGet]
  | cons hd tl ih =>
    obtain ⟨k', v'⟩ := hd
    by_cases hk : k' = k
    · simp [jsSet, if_pos hk, jsGet]
    · simp [jsSet, if_neg hk, jsGet, hk, ih]

theorem jsGet_jsSet_ne {κ α : Type} [DecidableEq κ]
    (m : List (κ × α)) (k k' : κ) (v : α) (h : k' ≠ k) :
    jsGet (jsSet m k v) k' = jsGet m k' := by
  induction m with
  | nil => simp [jsSet, jsGet, Ne.symm h]
  | cons hd tl ih =>
    obtain ⟨k'', v''⟩ := hd
    by_cases hk : k'' = k
    · subst hk
      simp [jsSet, jsGet, Ne.symm h]
    · simp only [jsSet, if_neg hk, jsGet, ih]

theorem levelAt_pushAtLevel (l : ℕ) :
    ∀ (ls : List (List String)) (id : String) (l' : ℕ),
      levelAt (pushAtLevel ls l id) l' =
        if l' = l then levelAt ls l ++ [id] else levelAt ls l' := by
  induction l with
  | zero =>
    intro ls id l'
    cases ls with
    | nil =>
      cases l' with
      | zero => simp [pushAtLevel, levelAt]
      | succ n => simp [pushAtLevel, levelAt]
    | cons g gs =>
      cases l' with
      | zero => simp [pushAtLevel, levelAt]
      | succ n => simp [pushAtLevel, levelAt]
  | succ m ih =>
    intro ls id l'
    cases ls with
    | nil =>
      cases l' with
      | zero => simp [pushAtLevel, levelAt]
      | succ n =>
        have := ih [] id n
        simp only [pushAtLevel, levelAt, List.getD_cons_succ] at this ⊢
        rw [this]
        simp [levelAt]
    | cons g gs =>
      cases l' with
      | zero => simp [pushAtLevel, levelAt]
      | succ n =>
        have := ih gs id n
        simp only [pushAtLevel, levelAt, List.getD_cons_succ] at this ⊢
        rw [this]
        simp [levelAt]

theorem mem_levelAt_pushAtLevel {x : String} {ls : List (List String)}
    {l' : ℕ} (l : ℕ) (id : String) (h : x ∈ levelAt ls l') :
    x ∈ levelAt (pushAtLevel ls l id) l' := by
  rw [levelAt_pushAtLevel]
  split
  · next heq => exact List.mem_append_left _ (heq ▸ h)
  · exact h

theorem bfsLevels_parent (children : List (String × List String)) :
    ∀ (fuel : ℕ) (queue : List (String × ℕ)) (visited : List String)
      (levels : List (List String)),
      (∀ pr ∈ queue, pr.2 = 0 ∨
        ∃ p, pr.1 ∈ childrenOf children p ∧ p ∈ levelAt levels (pr.2 - 1)) →
      (∀ l id, 1 ≤ l → id ∈ levelAt levels l →
        ∃ p, id ∈ childrenOf children p ∧ p ∈ levelAt levels (l - 1)) →
      ∀ l id, 1 ≤ l →
        id ∈ levelAt (bfsLevels children fuel queue visited levels) l →
        ∃ p, id ∈ childrenOf children p ∧
          p ∈ levelAt (bfsLevels children fuel queue visited levels) (l - 1) := by
  intro fuel
  induction fuel with
  | zero =>
    intro queue visited levels _ Hl l id hl hid
    exact Hl l id hl hid
  | succ fuel ih =>
    intro queue visited levels Hq Hl l id hl hid
    cases queue with
    | nil => exact Hl l id hl hid
    | cons pr rest =>
      obtain ⟨idq, lq⟩ := pr
      by_cases hv : idq ∈ visited
      · rw [bfsLevels, if_pos hv] at hid ⊢
        exact ih rest visited levels
          (fun pr hpr => Hq pr (List.mem_cons_of_mem _ hpr)) Hl l id hl hid
      · rw [bfsLevels, if_neg hv] at hid ⊢
        refine ih _ _ _ ?_ ?_ l id hl hid
        · intro pr hpr
          rcases List.mem_append.mp hpr with hpr | hpr
          · rcases Hq pr (List.mem_cons_of_mem _ hpr) with h0 | ⟨p, hc, hp⟩
            · exact Or.inl h0
            · exact Or.inr ⟨p, hc, mem_levelAt_pushAtLevel lq idq hp⟩
          · obtain ⟨c, hc, hpr'⟩ := List.mem_map.mp hpr
            refine Or.inr ⟨idq, ?_, ?_⟩
            · rw [← hpr']
              exact hc
            · rw [← hpr']
              simp only []
              rw [Nat.add_sub_cancel, levelAt_pushAtLevel, if_pos rfl]
              exact List.mem_append_right _ (List.mem_singleton_self _)
        · intro l' id' hl' hid'
          rw [levelAt_pushAtLevel] at hid'
          split at hid'
          · next heq =>
            subst heq
            rcases List.mem_append.mp hid' with hid' | hid'
            · obtain ⟨p, hc, hp⟩ := Hl l' id' hl' hid'
              exact ⟨p, hc, mem_levelAt_pushAtLevel _ _ hp⟩
            · rw [List.mem_singleton] at hid'
              subst hid'
              rcases Hq (id', l') (List.mem_cons_self _ _) with h0 | ⟨p, hc, hp⟩
              · omega
              · exact ⟨p, hc, mem_levelAt_pushAtLevel _ _ hp⟩
          · obtain ⟨p, hc, hp⟩ := Hl l' id' hl' hid'
            exact ⟨p, hc, mem_levelAt_pushAtLevel _ _ hp⟩

theorem mem_childrenOf_foldl (edges : List Edge) (p : String) (c : String) :
    ∀ m : List (String × List String),
      (c ∈ childrenOf
        (edges.foldl
          (fun m e => jsSet m e.from' ((jsGet m e.from').getD [] ++ [e.to']))
          m) p ↔
      c ∈ childrenOf m p ∨ ∃ e ∈ edges, e.from' = p ∧ e.to' = c) := by
  induction edges with
  | nil => simp
  | cons e es ih =>
    intro m
    rw [List.foldl_cons, ih]
    by_cases hp : e.from' = p
    · have hstep :
          childrenOf
            (jsSet m e.from' ((jsGet m e.from').getD [] ++ [e.to'])) p =
          childrenOf m p ++ [e.to'] := by
        subst hp
        simp [childrenOf, jsGet_jsSet_self]
      rw [hstep]
      constructor
      · rintro (h | ⟨e', he', h1, h2⟩)
        · rcases List.mem_append.mp h with h | h
          · exact Or.inl h
          · rw [List.mem_singleton] at h
            exact Or.inr ⟨e, List.mem_cons_self _ _, hp, h.symm⟩
        · exact Or.inr ⟨e', List.mem_cons_of_mem _ he', h1, h2⟩
      · rintro (h | ⟨e', he', h1, h2⟩)
        · exact Or.inl (List.mem_append_left _ h)
        · rcases List.mem_cons.mp he' with he'' | he''
          · subst he''
            exact Or.inl (List.mem_append_right _ (by simp [h2]))
          · exact Or.inr ⟨e', he'', h1, h2⟩
    · have hstep :
          childrenOf
            (jsSet m e.from' ((jsGet m e.from').getD [] ++ [e.to'])) p =
          childrenOf m p := by
        simp [childrenOf, jsGet_jsSet_ne _ _ _ _ (Ne.symm hp)]
      rw [hstep]
      constructor
      · rintro (h | ⟨e', he', h1, h2⟩)
        · exact Or.inl h
        · exact Or.inr ⟨e', List.mem_cons_of_mem _ he', h1, h2⟩
      · rintro (h | ⟨e', he', h1, h2⟩)
        · exact Or.inl h
        · rcases List.mem_cons.mp he' with he'' | he''
          · subst he''
            exact absurd h1 hp
          · exact Or.inr ⟨e', he'', h1, h2⟩

/-- C1 (amended): the tree layout's BFS assigns each node the level of the
first path that reaches it (the BFS shortest-path level), not the maximum:
every node placed at level `l ≥ 1` has **some** parent placed at level
`l - 1` (so `level = parentLevel + 1` holds for at least one parent), but
a node's level can be strictly less than `max(parentLevel) + 1`. -/
theorem treeLevels_parent_level (nodes : List Node) (edges : List Edge)
    (l : ℕ) (id : String) (hl : 1 ≤ l)
    (hid : id ∈ levelAt (treeLevels nodes edges) l) :
    ∃ e ∈ edges, e.to' = id ∧
      e.from' ∈ levelAt (treeLevels nodes edges) (l - 1) := by
  unfold treeLevels at hid ⊢
  obtain ⟨p, hc, hp⟩ :=
    bfsLevels_parent (buildChildren edges) (nodes.length + edges.length + 1)
      (((nodes.filter
        (fun n => (jsGet (buildParents edges) n.id).isNone)).map
          (fun r => (r.id, 0))))
      [] []
      (by
        intro pr hpr
        obtain ⟨r, _, hr⟩ := List.mem_map.mp hpr
        exact Or.inl (by rw [← hr]))
      (by
        intro l' id' _ hid'
        simp [levelAt] at hid')
      l id hl hid
  have := (mem_childrenOf_foldl edges p id []).mp hc
  rcases this with h | ⟨e, he, h1, h2⟩
  · simp [childrenOf, jsGet] at h
  · exact ⟨e, he, h2, h1 ▸ hp⟩

/-- Witness for `treeLevels_parent_level` on a two-node chain. -/
theorem treeLevels_parent_level_witness :
    ∃ e ∈ [(⟨"A", "B"⟩ : Edge)], e.to' = "B" ∧
      e.from' ∈
        levelAt (treeLevels [{ id := "A" }, { id := "B" }] [⟨"A", "B"⟩]) 0 :=
  treeLevels_parent_level [{ id := "A" }, { id := "B" }] [⟨"A", "B"⟩] 1 "B"
    (by decide) (by decide)

/-- C1 (counterexample): on nodes `A, B, C` with edges `A→B, A→C, B→C`,
the BFS places both `B` and `C` at level 1; `C`'s parent `B` is also at
level 1, so `C`'s level (1) is **less** than `max(parentLevel) + 1 = 2` —
the BFS takes the first (shortest) candidate level, not the maximum. -/
theorem treeLevels_not_maximum :
    levelOf
        (treeLevels [{ id := "A" }, { id := "B" }, { id := "C" }]
          [⟨"A", "B"⟩, ⟨"A", "C"⟩, ⟨"B", "C"⟩]) "C" = some 1 ∧
    levelOf
        (treeLevels [{ id := "A" }, { id := "B" }, { id := "C" }]
          [⟨"A", "B"⟩, ⟨"A", "C"⟩, ⟨"B", "C"⟩]) "B" = some 1 ∧
    (⟨"B", "C"⟩ : Edge) ∈
      [(⟨"A", "B"⟩ : Edge), ⟨"A", "C"⟩, ⟨"B", "C"⟩] ∧
    ¬(1 + 1 ≤ 1) := by
  decide


/-! ### C2 — dangling edges are not skipped -/

theorem foldlM_none {α β : Type} (l : List α) (f : β → α → Option β)
    (e : α) (he : e ∈ l) (hf : ∀ b', f b' e = none) :
    ∀ b : β, l.foldlM f b = none := by
  induction l with
  | nil => cases he
  | cons a l ih =>
    intro b
    rw [List.foldlM_cons]
    rcases List.mem_cons.mp he with rfl | he'
    · rw [hf b]
      rfl
    · cases hfa : f b a with
      | none => rfl
      | some b' => simpa [hfa] using ih he' b'

theorem fdInit_get_none (env : MathEnv) (id : String) :
    ∀ (nodes : List Node) (acc : List (String × PosVel) × ℕ),
      id ∉ nodes.map Node.id → jsGet acc.1 id = none →
      jsGet (nodes.foldl (fdInitStep env) acc).1 id = none := by
  intro nodes
  induction nodes with
  | nil =>
    intro acc _ h
    exact h
  | cons n ns ih =>
    intro acc hmem h
    have h1 : id ≠ n.id ∧ id ∉ ns.map Node.id := by simpa using hmem
    rw [List.foldl_cons]
    refine ih _ h1.2 ?_
    show jsGet (jsSet acc.1 n.id _) id = none
    rw [jsGet_jsSet_ne _ _ _ _ h1.1]
    exact h

theorem fdAttraction_none (env : MathEnv) (attraction : ℚ)
    (edges : List Edge) (positions : List (String × PosVel)) (e : Edge)
    (he : e ∈ edges)
    (hbad : jsGet positions e.from' = none ∨ jsGet positions e.to' = none) :
    ∀ forces, fdAttraction env attraction edges positions forces = none := by
  intro forces
  unfold fdAttraction
  refine foldlM_none _ _ e he ?_ forces
  intro b
  rcases hbad with h | h
  · simp [h]
  · cases h1 : jsGet positions e.from' with
    | none => simp [h1]
    | some p1 => simp [h1, h]

/-- C2 (amended): `forceDirectedLayout` does not skip a dangling edge — it
crashes: whenever some edge endpoint names no node (and at least one
simulation iteration runs, as with the default of 100), the whole call
fails with a `TypeError` instead of laying out the remaining nodes, and no
skipped-edge report is produced.  (The skip-and-report policy exists only
in the flowchart tool handler, which drops connections with unknown node
ids and appends a warning to its response message; the generic layout
algorithms have no such guard.) -/
theorem forceDirectedLayout_dangling_crashes (nodes : List Node)
    (edges : List Edge) (options : LayoutOptions) (env : MathEnv) (e : Edge)
    (he : e ∈ edges)
    (hbad : e.from' ∉ nodes.map Node.id ∨ e.to' ∉ nodes.map Node.id)
    (hiter : 1 ≤ jsOrNat options.iterations 100) :
    forceDirectedLayout nodes edges options env = none := by
  have hpos : jsGet (fdInitPositions env nodes).1 e.from' = none ∨
      jsGet (fdInitPositions env nodes).1 e.to' = none := by
    rcases hbad with h | h
    · exact Or.inl (fdInit_get_none env e.from' nodes ([], 0) h rfl)
    · exact Or.inr (fdInit_get_none env e.to' nodes ([], 0) h rfl)
  have hstep : ∀ repulsion attraction : ℚ,
      fdStep env repulsion attraction nodes edges
        (fdInitPositions env nodes).1 = none := by
    intro repulsion attraction
    unfold fdStep
    cases hrep : fdRepulsion env repulsion nodes (fdInitPositions env nodes).1
        (nodes.foldl (fun m n => jsSet m n.id (⟨0, 0⟩ : ForceVec)) []) with
    | none => simp [hrep]
    | some f1 =>
      simp [hrep, fdAttraction_none env attraction edges
        (fdInitPositions env nodes).1 e he hpos]
  obtain ⟨k, hk⟩ : ∃ k, jsOrNat options.iterations 100 = k + 1 :=
    ⟨jsOrNat options.iterations 100 - 1, by omega⟩
  simp only [forceDirectedLayout, hk]
  rw [show fdLoop env (jsOr options.repulsion 5000)
      (jsOr options.attraction (1 / 100)) nodes edges (k + 1)
      (fdInitPositions env nodes).1 =
    fdStep env (jsOr options.repulsion 5000)
        (jsOr options.attraction (1 / 100)) nodes edges
        (fdInitPositions env nodes).1 >>=
      fdLoop env (jsOr options.repulsion 5000)
        (jsOr options.attraction (1 / 100)) nodes edges k from rfl]
  rw [hstep]
  rfl

/-- Witness for `forceDirectedLayout_dangling_crashes` on one node and one
dangling edge. -/
theorem forceDirectedLayout_dangling_crashes_witness :
    forceDirectedLayout [{ id := "A" }] [⟨"A", "X"⟩] noOptions trivEnv =
      none :=
  forceDirectedLayout_dangling_crashes [{ id := "A" }] [⟨"A", "X"⟩]
    noOptions trivEnv ⟨"A", "X"⟩ (List.mem_singleton_self _)
    (Or.inr (by decide)) (by decide)

/-- C2 (counterexample): neither cited layout algorithm skips a dangling
edge.  On one node `A` and the single edge `A→X` (where `X` is not a
node), `treeLayout` crashes in its positioning loop
(`nodeMap.get("X")!` is `undefined`) and `forceDirectedLayout` crashes in
its attraction loop (`positions.get("X")!` is `undefined`); neither
returns a partial layout or a skipped-edge report. -/
theorem layouts_crash_on_dangling_edge :
    treeLayout [{ id := "A" }] [⟨"A", "X"⟩] noOptions trivEnv = none ∧
    forceDirectedLayout [{ id := "A" }] [⟨"A", "X"⟩] noOptions trivEnv =
      none := by
  constructor <;> decide


/-! ### C4 — beautify is not update-set idempotent -/

theorem foldl_addToGroupB_single (f : CanvasElem) :
    ∀ (rest : List CanvasElem) (t : List CanvasElem),
      (∀ s ∈ rest, s.x = f.x) →
      rest.foldl (addToGroupB 15) [f :: t] = [f :: (t ++ rest)] := by
  intro rest
  induction rest with
  | nil => intro t _; simp
  | cons s rest ih =>
    intro t hall
    have hx : s.x = f.x := hall s (List.mem_cons_self _ _)
    have hlt : |s.x - f.x| < 15 := by
      rw [hx, sub_self, abs_zero]
      norm_num
    rw [List.foldl_cons]
    rw [show addToGroupB 15 [f :: t] s = [f :: (t ++ [s])] by
      simp [addToGroupB, hlt]]
    rw [ih (t ++ [s]) (fun s' hs' => hall s' (List.mem_cons_of_mem _ hs'))]
    simp

theorem foldl_sum_x (x0 : ℚ) :
    ∀ (l : List CanvasElem) (a : ℚ), (∀ s ∈ l, s.x = x0) →
      l.foldl (fun sum s => sum + s.x) a = a + l.length * x0 := by
  intro l
  induction l with
  | nil => intro a _; simp
  | cons s l ih =>
    intro a hall
    rw [List.foldl_cons, ih _ (fun s' hs' => hall s' (List.mem_cons_of_mem _ hs')),
      hall s (List.mem_cons_self _ _)]
    push_cast [List.length_cons]
    ring

theorem group_updates_all (avgX : ℚ) (g : List CanvasElem)
    (h : ∀ s ∈ g, |s.x - avgX| < 15) :
    ∀ u0 : List ElementUpdate,
      g.foldl
        (fun (u : List ElementUpdate) e =>
          if |e.x - avgX| < 15 then u ++ [⟨e.id, some (jsRound avgX), none⟩]
          else u)
        u0 =
      u0 ++ g.map (fun e => ⟨e.id, some (jsRound avgX), none⟩) := by
  induction g with
  | nil => intro u0; simp
  | cons e g ih =>
    intro u0
    rw [List.foldl_cons, if_pos (h e (List.mem_cons_self _ _)),
      ih (fun s hs => h s (List.mem_cons_of_mem _ hs))]
    simp

theorem spacing_updates_empty (sq : ℚ → ℚ) :
    ∀ (l : List (CanvasElem × CanvasElem)) (u : List ElementUpdate),
      (∀ p ∈ l, 6400 ≤ distanceSq p.1 p.2) →
      l.foldl
        (fun (upds : List ElementUpdate) p => upds ++ spacingUpdate sq p)
        u = u := by
  intro l
  induction l with
  | nil => intro u _; simp
  | cons p l ih =>
    intro u hall
    have hge := hall p (List.mem_cons_self _ _)
    have hempty : spacingUpdate sq p = [] := by
      unfold spacingUpdate
      rw [if_neg (by
        simp only [Bool.and_eq_true, decide_eq_true_eq]
        rintro ⟨h1, _⟩
        exact absurd h1 (not_lt.mpr hge))]
    rw [List.foldl_cons, hempty, List.append_nil]
    exact ih u (fun p' hp' => hall p' (List.mem_cons_of_mem _ hp'))

theorem jsRound_intCast (k : ℤ) : jsRound ((k : ℚ)) = (k : ℚ) := by
  unfold jsRound
  rw [Int.floor_int_add]
  norm_num

theorem alignUpdatesOfGroup_equal (k : ℤ) (g : List CanvasElem)
    (h2 : 2 ≤ g.length) (hx : ∀ s ∈ g, s.x = (k : ℚ)) :
    alignUpdatesOfGroup g =
      g.map (fun e => ⟨e.id, some ((k : ℚ)), none⟩) := by
  unfold alignUpdatesOfGroup
  rw [if_pos h2]
  have hlen : (g.length : ℚ) ≠ 0 := by
    have h0 : 0 < g.length := by omega
    exact_mod_cast h0.ne'
  have havg : (g.foldl (fun sum s => sum + s.x) 0) / (g.length : ℚ) =
      (k : ℚ) := by
    rw [foldl_sum_x (k : ℚ) g 0 hx]
    field_simp
  rw [havg]
  rw [group_updates_all ((k : ℚ)) g
    (fun s hs => by rw [hx s hs, sub_self, abs_zero]; norm_num) []]
  simp [jsRound_intCast]

theorem applyUpdates_id (S : List CanvasElem) (k : ℤ)
    (hx : ∀ s ∈ S, s.x = (k : ℚ)) (U : List ElementUpdate)
    (hU : ∀ u ∈ U, u.x = some ((k : ℚ)) ∧ u.y = none) :
    applyUpdates S U = S := by
  unfold applyUpdates
  have hfold : ∀ U' : List ElementUpdate,
      (∀ u ∈ U', u.x = some ((k : ℚ)) ∧ u.y = none) →
      ∀ el ∈ S,
        U'.foldl
          (fun acc u =>
            if u.id = acc.id then
              { acc with x := u.x.getD acc.x, y := u.y.getD acc.y }
            else acc)
          el = el := by
    intro U'
    induction U' with
    | nil => intro _ el _; rfl
    | cons u U' ih =>
      intro hU' el hel
      rw [List.foldl_cons]
      have hu := hU' u (List.mem_cons_self _ _)
      have hstep :
          (if u.id = el.id then
            ({ el with x := u.x.getD el.x, y := u.y.getD el.y } : CanvasElem)
          else el) = el := by
        by_cases hid : u.id = el.id
        · rw [if_pos hid, hu.1, hu.2]
          have hxel := hx el hel
          cases el
          simp_all
        · rw [if_neg hid]
      rw [hstep]
      exact ih (fun u' hu' => hU' u' (List.mem_cons_of_mem _ hu')) el hel
  calc S.map (fun el =>
        U.foldl
          (fun acc u =>
            if u.id = acc.id then
              { acc with x := u.x.getD acc.x, y := u.y.getD acc.y }
            else acc)
          el) = S.map id := by
        apply List.map_congr_left
        intro el hel
        exact hfold U hU el hel
    _ = S := List.map_id S

/-- C4 (amended): an already-beautified layout is a fixed point of the
**positions** but not of the **update set**: for shapes that all share one
integer `x` and are pairwise at distance ≥ 80, `beautify` returns one
identity update per shape (setting `x` to its current value), applying
those updates leaves every shape unchanged, and calling `beautify` again
on the updated shapes returns the **same non-empty** update list — not the
empty set the claim asserts. -/
theorem beautify_aligned_fixed_point (sq : ℚ → ℚ) (S : List CanvasElem)
    (k : ℤ) (h2 : 2 ≤ S.length) (hsh : ∀ s ∈ S, isShapeType s = true)
    (hx : ∀ s ∈ S, s.x = (k : ℚ))
    (hfar : ∀ p ∈ upairs S, 6400 ≤ distanceSq p.1 p.2) :
    beautifyDiagram sq S = S.map (fun s => ⟨s.id, some ((k : ℚ)), none⟩) ∧
    applyUpdates S (beautifyDiagram sq S) = S ∧
    beautifyDiagram sq (applyUpdates S (beautifyDiagram sq S)) =
      beautifyDiagram sq S ∧
    beautifyDiagram sq S ≠ [] := by
  have hfilter : S.filter isShapeType = S := List.filter_eq_self.mpr hsh
  have hmain : beautifyDiagram sq S =
      S.map (fun s => ⟨s.id, some ((k : ℚ)), none⟩) := by
    unfold beautifyDiagram
    rw [hfilter]
    cases S with
    | nil => simp at h2
    | cons f rest =>
      have hgroups : (f :: rest).foldl (addToGroupB 15) [] = [f :: rest] := by
        rw [List.foldl_cons,
          show addToGroupB 15 ([] : List (List CanvasElem)) f = [[f]]
            from rfl]
        simpa using foldl_addToGroupB_single f rest []
          (fun s hs => by
            rw [hx s (List.mem_cons_of_mem _ hs),
              hx f (List.mem_cons_self _ _)])
      dsimp only
      rw [hgroups,
        show ([f :: rest].foldl
          (fun (upds : List ElementUpdate) g => upds ++ alignUpdatesOfGroup g)
          []) = alignUpdatesOfGroup (f :: rest) by simp,
        alignUpdatesOfGroup_equal k _ h2 hx]
      exact spacing_updates_empty sq _ _ hfar
  have happly : applyUpdates S (beautifyDiagram sq S) = S := by
    rw [hmain]
    refine applyUpdates_id S k hx _ ?_
    intro u hu
    obtain ⟨s, _, hs⟩ := List.mem_map.mp hu
    rw [← hs]
    exact ⟨rfl, rfl⟩
  refine ⟨hmain, happly, by rw [happly], ?_⟩
  rw [hmain]
  cases S with
  | nil => simp at h2
  | cons f rest => simp


/-- Witness for `beautify_aligned_fixed_point`: two 10×10 rectangles at
`x = 0`, 200px apart vertically. -/
theorem beautify_aligned_fixed_point_witness :
    beautifyDiagram (fun _ => 0)
        ([⟨"A", ToolType.rectangle, 0, 0, 10, 10⟩,
          ⟨"B", ToolType.rectangle, 0, 200, 10, 10⟩] : List CanvasElem) =
      ([⟨"A", ToolType.rectangle, 0, 0, 10, 10⟩,
        ⟨"B", ToolType.rectangle, 0, 200, 10, 10⟩] : List CanvasElem).map
        (fun s => ⟨s.id, some (((0 : ℤ) : ℚ)), none⟩) ∧
    applyUpdates
        ([⟨"A", ToolType.rectangle, 0, 0, 10, 10⟩,
          ⟨"B", ToolType.rectangle, 0, 200, 10, 10⟩] : List CanvasElem)
        (beautifyDiagram (fun _ => 0)
          ([⟨"A", ToolType.rectangle, 0, 0, 10, 10⟩,
            ⟨"B", ToolType.rectangle, 0, 200, 10, 10⟩] : List CanvasElem)) =
      ([⟨"A", ToolType.rectangle, 0, 0, 10, 10⟩,
        ⟨"B", ToolType.rectangle, 0, 200, 10, 10⟩] : List CanvasElem) ∧
    beautifyDiagram (fun _ => 0)
        (applyUpdates
          ([⟨"A", ToolType.rectangle, 0, 0, 10, 10⟩,
            ⟨"B", ToolType.rectangle, 0, 200, 10, 10⟩] : List CanvasElem)
          (beautifyDiagram (fun _ => 0)
            ([⟨"A", ToolType.rectangle, 0, 0, 10, 10⟩,
              ⟨"B", ToolType.rectangle, 0, 200, 10, 10⟩] : List CanvasElem))) =
      beautifyDiagram (fun _ => 0)
        ([⟨"A", ToolType.rectangle, 0, 0, 10, 10⟩,
          ⟨"B", ToolType.rectangle, 0, 200, 10, 10⟩] : List CanvasElem) ∧
    beautifyDiagram (fun _ => 0)
        ([⟨"A", ToolType.rectangle, 0, 0, 10, 10⟩,
          ⟨"B", ToolType.rectangle, 0, 200, 10, 10⟩] : List CanvasElem) ≠ [] :=
  beautify_aligned_fixed_point (fun _ => 0)
    ([⟨"A", ToolType.rectangle, 0, 0, 10, 10⟩,
      ⟨"B", ToolType.rectangle, 0, 200, 10, 10⟩] : List CanvasElem) 0
    (by decide) (by decide)
    (by intro s hs; fin_cases hs <;> norm_num)
    (by
      intro p hp
      simp only [upairs, List.map, List.mem_append, List.mem_singleton,
        List.not_mem_nil, or_false] at hp
      subst hp
      norm_num [distanceSq])

/-- C4 (counterexample): on two aligned, well-spaced rectangles, applying
the updates returned by `beautify` and calling `beautify` again yields a
**non-empty** update set (two identity updates), contradicting the claimed
empty set. -/
theorem beautify_second_call_nonempty :
    beautifyDiagram (fun _ => 0)
        (applyUpdates
          ([⟨"A", ToolType.rectangle, 0, 0, 10, 10⟩,
            ⟨"B", ToolType.rectangle, 0, 200, 10, 10⟩] : List CanvasElem)
          (beautifyDiagram (fun _ => 0)
            ([⟨"A", ToolType.rectangle, 0, 0, 10, 10⟩,
              ⟨"B", ToolType.rectangle, 0, 200, 10, 10⟩] : List CanvasElem))) ≠ [] := by
  have h1 : beautifyDiagram (fun _ => 0)
      ([⟨"A", ToolType.rectangle, 0, 0, 10, 10⟩,
        ⟨"B", ToolType.rectangle, 0, 200, 10, 10⟩] : List CanvasElem) =
      [⟨"A", some 0, none⟩, ⟨"B", some 0, none⟩] := by
    norm_num [beautifyDiagram, addToGroupB, alignUpdatesOfGroup, upairs,
      spacingUpdate, isShapeType, isOverlapping, distanceSq, jsRound]
  have h2 : applyUpdates
      ([⟨"A", ToolType.rectangle, 0, 0, 10, 10⟩,
        ⟨"B", ToolType.rectangle, 0, 200, 10, 10⟩] : List CanvasElem)
      ([⟨"A", some 0, none⟩, ⟨"B", some 0, none⟩] : List ElementUpdate) =
      ([⟨"A", ToolType.rectangle, 0, 0, 10, 10⟩,
        ⟨"B", ToolType.rectangle, 0, 200, 10, 10⟩] : List CanvasElem) := by
    norm_num [applyUpdates]
  rw [h1, h2, h1]
  simp


/-! ### Fuel adequacy for the BFS loop

The `while` loop of `treeLayout`'s BFS is embedded with a fuel bound.  The
following theorems justify the bound passed at the call sites: the loop's
result is the same for every fuel at least `queue.length` plus the total
number of stored children of unvisited ids, and for `treeLevels` that
potential is at most `nodes.length + edges.length`, so the fueled function
computes the fixpoint of the unbounded loop. -/

/-- Total number of stored children whose parent id is still unvisited. -/
def sumChildrenUnvisited (children : List (String × List String))
    (visited : List String) : ℕ :=
  ((children.filter (fun pc => pc.1 ∉ visited)).map
    (fun pc => pc.2.length)).sum

theorem sumChildrenUnvisited_mono (children : List (String × List String))
    (visited : List String) (id : String) :
    sumChildrenUnvisited children (id :: visited) ≤
      sumChildrenUnvisited children visited := by
  induction children with
  | nil => simp [sumChildrenUnvisited]
  | cons pc rest ih =>
    simp only [sumChildrenUnvisited] at ih ⊢
    rw [List.filter_cons, List.filter_cons]
    by_cases h1 : pc.1 ∈ id :: visited
    · rw [if_neg (by simp [h1])]
      by_cases h2 : pc.1 ∈ visited
      · rw [if_neg (by simp [h2])]
        exact ih
      · rw [if_pos (by simp [h2]), List.map_cons, List.sum_cons]
        exact le_trans ih (Nat.le_add_left _ _)
    · have h2 : pc.1 ∉ visited := fun h => h1 (List.mem_cons_of_mem _ h)
      rw [if_pos (by simp [h1]), if_pos (by simp [h2]), List.map_cons,
        List.sum_cons, List.map_cons, List.sum_cons]
      exact Nat.add_le_add_left ih _

theorem sumChildrenUnvisited_visit (children : List (String × List String))
    (visited : List String) (id : String) (hv : id ∉ visited) :
    sumChildrenUnvisited children (id :: visited) +
        ((jsGet children id).getD []).length ≤
      sumChildrenUnvisited children visited := by
  induction children with
  | nil => simp [sumChildrenUnvisited, jsGet]
  | cons pc rest ih =>
    obtain ⟨p, cs⟩ := pc
    simp only [sumChildrenUnvisited] at ih ⊢
    rw [List.filter_cons, List.filter_cons]
    by_cases hid : p = id
    · subst hid
      rw [show jsGet ((p, cs) :: rest) p = some cs by simp [jsGet],
        if_neg (by simp), if_pos (by simp [hv]), List.map_cons,
        List.sum_cons]
      have hmono := sumChildrenUnvisited_mono rest visited p
      simp only [sumChildrenUnvisited] at hmono
      simp only [Option.getD_some]
      omega
    · rw [show jsGet ((p, cs) :: rest) id = jsGet rest id by
        simp [jsGet, hid]]
      by_cases hpv : p ∈ visited
      · rw [if_neg (by simp [hpv]), if_neg (by simp [List.mem_cons, hpv])]
        exact ih
      · have h3 : p ∉ id :: visited := by simp [hid, hpv]
        rw [if_pos (by simp [h3]), if_pos (by simp [hpv]), List.map_cons,
          List.sum_cons, List.map_cons, List.sum_cons]
        omega

theorem bfsLevels_fuel_congr (children : List (String × List String)) :
    ∀ (n fuel₁ fuel₂ : ℕ) (queue : List (String × ℕ))
      (visited : List String) (levels : List (List String)),
      queue.length + sumChildrenUnvisited children visited ≤ n →
      n ≤ fuel₁ → n ≤ fuel₂ →
      bfsLevels children fuel₁ queue visited levels =
        bfsLevels children fuel₂ queue visited levels := by
  intro n
  induction n with
  | zero =>
    intro fuel₁ fuel₂ queue visited levels hpot _ _
    have hq : queue = [] := by
      cases queue with
      | nil => rfl
      | cons a q => simp at hpot
    subst hq
    cases fuel₁ <;> cases fuel₂ <;> rfl
  | succ n ih =>
    intro fuel₁ fuel₂ queue visited levels hpot h1 h2
    cases queue with
    | nil => cases fuel₁ <;> cases fuel₂ <;> rfl
    | cons pr rest =>
      obtain ⟨id, level⟩ := pr
      obtain ⟨f₁, rfl⟩ : ∃ f₁, fuel₁ = f₁ + 1 := ⟨fuel₁ - 1, by omega⟩
      obtain ⟨f₂, rfl⟩ : ∃ f₂, fuel₂ = f₂ + 1 := ⟨fuel₂ - 1, by omega⟩
      by_cases hv : id ∈ visited
      · rw [bfsLevels, if_pos hv, bfsLevels, if_pos hv]
        refine ih f₁ f₂ rest visited levels ?_ (by omega) (by omega)
        simp only [List.length_cons] at hpot
        omega
      · rw [bfsLevels, if_neg hv, bfsLevels, if_neg hv]
        refine ih f₁ f₂ _ _ _ ?_ (by omega) (by omega)
        have hvisit := sumChildrenUnvisited_visit children visited id hv
        simp only [List.length_append, List.length_map,
          List.length_cons] at hpot ⊢
        omega

/-- Total number of stored children over all ids. -/
def totalChildren (m : List (String × List String)) : ℕ :=
  (m.map (fun pc => pc.2.length)).sum

theorem totalChildren_push (m : List (String × List String)) (k : String)
    (x : String) :
    totalChildren (jsSet m k ((jsGet m k).getD [] ++ [x])) =
      totalChildren m + 1 := by
  induction m with
  | nil => simp [totalChildren, jsSet, jsGet]
  | cons pc rest ih =>
    obtain ⟨p, cs⟩ := pc
    by_cases hp : p = k
    · subst hp
      simp [totalChildren, jsSet, jsGet]
      omega
    · have hget : jsGet ((p, cs) :: rest) k = jsGet rest k := by
        simp [jsGet, hp]
      rw [hget]
      have hset : jsSet ((p, cs) :: rest) k ((jsGet rest k).getD [] ++ [x]) =
          (p, cs) :: jsSet rest k ((jsGet rest k).getD [] ++ [x]) := by
        simp [jsSet, hp]
      rw [hset]
      simp only [totalChildren, List.map_cons, List.sum_cons] at ih ⊢
      omega

theorem totalChildren_buildChildren (edges : List Edge) :
    ∀ m, totalChildren
        (edges.foldl
          (fun m e => jsSet m e.from' ((jsGet m e.from').getD [] ++ [e.to']))
          m) = totalChildren m + edges.length := by
  induction edges with
  | nil => intro m; simp
  | cons e es ih =>
    intro m
    rw [List.foldl_cons, ih, totalChildren_push]
    simp only [List.length_cons]
    omega

/-- The fuel `nodes.length + edges.length + 1` passed by `treeLevels` is
sufficient: any fuel at least that large computes the same level table, so
the fueled BFS computes the fixpoint of the source's unbounded loop. -/
theorem treeLevels_fuel_sufficient (nodes : List Node) (edges : List Edge)
    (fuel : ℕ) (hfuel : nodes.length + edges.length + 1 ≤ fuel) :
    bfsLevels (buildChildren edges) fuel
      (((nodes.filter
        (fun n => (jsGet (buildParents edges) n.id).isNone)).map
          (fun r => (r.id, 0))))
      [] [] = treeLevels nodes edges := by
  unfold treeLevels
  refine bfsLevels_fuel_congr (buildChildren edges)
    (nodes.length + edges.length + 1) fuel
    (nodes.length + edges.length + 1) _ _ _ ?_ hfuel le_rfl
  have hroots : ((nodes.filter
      (fun n => (jsGet (buildParents edges) n.id).isNone)).map
        (fun r => (r.id, 0))).length ≤ nodes.length := by
    rw [List.length_map]
    exact List.length_filter_le _ _
  have hsum : sumChildrenUnvisited (buildChildren edges) [] =
      edges.length := by
    have h := totalChildren_buildChildren edges []
    simp only [totalChildren, List.map_nil, List.sum_nil, Nat.zero_add] at h
    simp only [sumChildrenUnvisited, List.not_mem_nil, not_false_eq_true]
    rw [List.filter_eq_self.mpr (by intro a _; simp)]
    exact h
  omega

/-- Witness for `treeLevels_fuel_sufficient` at a concrete input. -/
theorem treeLevels_fuel_sufficient_witness :
    bfsLevels (buildChildren [⟨"A", "B"⟩]) 50
      (((([{ id := "A" }, { id := "B" }] : List Node).filter
        (fun n => (jsGet (buildParents [⟨"A", "B"⟩]) n.id).isNone)).map
          (fun r => (r.id, 0))))
      [] [] =
      treeLevels ([{ id := "A" }, { id := "B" }] : List Node) [⟨"A", "B"⟩] :=
  treeLevels_fuel_sufficient ([{ id := "A" }, { id := "B" }] : List Node)
    [⟨"A", "B"⟩] 50 (by decide)


end Drawit
